import Mathlib

/-!
# PurpleReaction: trial timing state machine

A shallow embedding of `src/main.cpp` (the session loop `RunTestSession`, the
input latch `RecordRawInputPress`, the message pump, the result aggregation,
the exporters, and the configuration code `ParseArgs` and `ShowSettingsPage`)
together with the properties proved about it.

Modelling conventions.

* `double` values computed by the session are exact rationals (`ℚ`); rounding
  is not modelled.  The two configured delay bounds hold whatever the C
  conversions return, so they are `CDouble`s: a rational, an infinity or NaN,
  compared the way IEEE 754 compares them.
* `LONGLONG` and `int` arithmetic is two's-complement: every addition and
  subtraction of the source goes through `wrapInt64` / `wrapInt32`.
* Every call of `QpcNow`, every sample of the delay distribution and every
  message taken off the queue is an explicit input of the loop iteration that
  consumes it, so the loop is a pure function of the list of these inputs.
* `printf` output, window management and the D3D calls other than the
  presented grey level are left out.
* Library code is a parameter: the stream's formatting of a `double` (`fmt`)
  and the C conversions `wcstod`, `wcstol`, `strtod`, `strtol` (`CRuntime`).
-/

namespace PurpleReaction

/-! ## Data model -/

/-- One row of `App::results`. -/
structure TrialResult where
  delaySeconds : ℚ
  reactionMs : ℚ
  falseStart : Bool
  deriving DecidableEq, Repr

inductive Phase where
  | BeginTrial
  | WaitingForStimulus
  | WaitingForResponse
  | Finished
  deriving DecidableEq, Repr

inductive SessionOutcome where
  | Completed
  | Aborted
  | QuitRequested
  deriving DecidableEq, Repr

/-- A `double` as `wcstod` and `strtod` can return it: a number, an infinity
or NaN. -/
inductive CDouble where
  | finite (q : ℚ)
  | posInf
  | negInf
  | nan
  deriving DecidableEq, Repr

/-- The comparison `a <= b` of two `double`s: false as soon as one is NaN. -/
def CDouble.le : CDouble → CDouble → Bool
  | CDouble.nan, _ => false
  | _, CDouble.nan => false
  | CDouble.finite a, CDouble.finite b => decide (a ≤ b)
  | CDouble.negInf, _ => true
  | _, CDouble.posInf => true
  | CDouble.finite _, CDouble.negInf => false
  | CDouble.posInf, CDouble.finite _ => false
  | CDouble.posInf, CDouble.negInf => false

/-- The comparison `a < b` of two `double`s: false as soon as one is NaN. -/
def CDouble.lt : CDouble → CDouble → Bool
  | CDouble.nan, _ => false
  | _, CDouble.nan => false
  | CDouble.finite a, CDouble.finite b => decide (a < b)
  | CDouble.negInf, CDouble.negInf => false
  | CDouble.negInf, _ => true
  | CDouble.posInf, _ => false
  | CDouble.finite _, CDouble.posInf => true
  | CDouble.finite _, CDouble.negInf => false

instance : LE CDouble := ⟨fun a b => CDouble.le a b = true⟩

instance : LT CDouble := ⟨fun a b => CDouble.lt a b = true⟩

instance (a b : CDouble) : Decidable (a ≤ b) :=
  inferInstanceAs (Decidable (CDouble.le a b = true))

instance (a b : CDouble) : Decidable (a < b) :=
  inferInstanceAs (Decidable (CDouble.lt a b = true))

instance (n : Nat) : OfNat CDouble n := ⟨CDouble.finite (n : ℚ)⟩

/-- The fields of `struct App` that the session logic and the configuration
code read or write.  The pair `delayDist` holds the two bounds of the
`uniform_real_distribution`. -/
structure App where
  qpcFreq : Int
  trialCount : Int
  minDelaySeconds : CDouble
  maxDelaySeconds : CDouble
  trialIndex : Int
  phase : Phase
  hasInput : Bool
  inputWasFalseStart : Bool
  escapePressed : Bool
  quitRequested : Bool
  trialStartQpc : Int
  stimulusQpc : Int
  inputQpc : Int
  scheduledDelaySeconds : ℚ
  delayDist : CDouble × CDouble
  results : List TrialResult
  runOnceNoPrompt : Bool
  jsonOutputPath : String
  csvOutputPath : String
  deriving DecidableEq, Repr

/-! ## Machine integers -/

/-- Two's-complement reduction to a signed 64-bit value (`LONGLONG`). -/
def wrapInt64 (x : Int) : Int :=
  (x + 2 ^ 63) % 2 ^ 64 - 2 ^ 63

/-- Two's-complement reduction to a signed 32-bit value (`int`). -/
def wrapInt32 (x : Int) : Int :=
  (x + 2 ^ 31) % 2 ^ 32 - 2 ^ 31

/-! ## Clock conversions -/

def QpcDeltaToMilliseconds (delta freq : Int) : ℚ :=
  (delta : ℚ) * 1000 / (freq : ℚ)

def QpcDeltaToSeconds (delta freq : Int) : ℚ :=
  (delta : ℚ) / (freq : ℚ)

/-! ## Input latch and window procedure -/

/-- The latch `RecordRawInputPress`; `qpc` is the reading `QpcNow()` returns
if the press is accepted. -/
def RecordRawInputPress (app : App) (qpc : Int) : App :=
  if app.phase = Phase.WaitingForResponse ∧ app.hasInput = false then
    { app with inputQpc := qpc, hasInput := true, inputWasFalseStart := false }
  else if app.phase = Phase.WaitingForStimulus ∧ app.hasInput = false then
    { app with inputQpc := qpc, hasInput := true, inputWasFalseStart := true }
  else
    app

/-- The messages `WindowProc` and `PumpMessages` tell apart.  `keyboard` and
`mouse` are `WM_INPUT` packets; `other` is everything handed to
`DefWindowProcW` (including a `WM_INPUT` whose data could not be read). -/
inductive Msg where
  | keyboard (isBreak : Bool) (vkey : Nat)
  | mouse (usButtonFlags : Nat)
  | close
  | destroy
  | quit
  | other
  deriving DecidableEq, Repr

def VK_ESCAPE : Nat := 0x1B

def RI_MOUSE_LEFT_BUTTON_DOWN : Nat := 0x0001
def RI_MOUSE_RIGHT_BUTTON_DOWN : Nat := 0x0004
def RI_MOUSE_MIDDLE_BUTTON_DOWN : Nat := 0x0010
def RI_MOUSE_BUTTON_4_DOWN : Nat := 0x0040
def RI_MOUSE_BUTTON_5_DOWN : Nat := 0x0100

/-- The button test of the `RIM_TYPEMOUSE` branch. -/
def mouseButtonDown (f : Nat) : Bool :=
  (f &&& RI_MOUSE_LEFT_BUTTON_DOWN != 0) ||
  (f &&& RI_MOUSE_RIGHT_BUTTON_DOWN != 0) ||
  (f &&& RI_MOUSE_MIDDLE_BUTTON_DOWN != 0) ||
  (f &&& RI_MOUSE_BUTTON_4_DOWN != 0) ||
  (f &&& RI_MOUSE_BUTTON_5_DOWN != 0)

/-- The effect of `WindowProc` on the `App` for one message; `qpc` is the
clock reading available while the message is handled. -/
def WindowProc (app : App) (msg : Msg) (qpc : Int) : App :=
  match msg with
  | Msg.keyboard isBreak vkey =>
      if isBreak then app
      else if vkey = VK_ESCAPE then { app with escapePressed := true }
      else RecordRawInputPress app qpc
  | Msg.mouse f =>
      if mouseButtonDown f then RecordRawInputPress app qpc else app
  | Msg.close => { app with quitRequested := true }
  | Msg.destroy => { app with quitRequested := true }
  | Msg.quit => app
  | Msg.other => app

/-- A queued message together with the clock reading at its dispatch. -/
structure PumpedMsg where
  msg : Msg
  qpc : Int
  deriving DecidableEq, Repr

/-- One turn of the `PeekMessageW` loop. -/
def pumpOne (app : App) (m : PumpedMsg) : App :=
  let app1 := WindowProc app m.msg m.qpc
  if m.msg = Msg.quit then { app1 with quitRequested := true } else app1

/-- The loop `PumpMessages` over the messages found in the queue. -/
def PumpMessages (app : App) (msgs : List PumpedMsg) : App :=
  msgs.foldl pumpOne app

/-! ## Session loop -/

def ResetSessionState (app : App) : App :=
  { app with
    results := []
    trialIndex := 0
    phase := Phase.BeginTrial
    hasInput := false
    inputWasFalseStart := false
    escapePressed := false
    trialStartQpc := 0
    stimulusQpc := 0
    inputQpc := 0
    scheduledDelaySeconds := 0
    delayDist := (app.minDelaySeconds, app.maxDelaySeconds) }

/-- What an iteration does besides changing the `App`. -/
inductive Effect where
  | present (gray : ℚ)
  | sleep (ms : Nat)
  | switchToThread
  deriving DecidableEq, Repr

/-- Everything one loop iteration reads from outside: the queued messages,
the reading `now`, the delay sample (used by `BeginTrial`) and the two
readings `t0`, `t1` around the stimulus presentation. -/
structure IterInput where
  msgs : List PumpedMsg
  now : Int
  delay : ℚ
  t0 : Int
  t1 : Int
  deriving DecidableEq, Repr

/-- Result of one iteration: the new `App`, the effects, and the outcome when
the loop is left in this iteration. -/
structure IterOut where
  app : App
  effects : List Effect
  exit : Option SessionOutcome
  deriving DecidableEq, Repr

/-- The phase of `trialIndex` after a trial has been resolved. -/
def nextPhase (trialIndex trialCount : Int) : Phase :=
  if trialIndex ≥ trialCount then Phase.Finished else Phase.BeginTrial

/-- The `switch (app.phase)` of `RunTestSession`. -/
def phaseStep (app : App) (i : IterInput) : IterOut :=
  match app.phase with
  | Phase.BeginTrial =>
      { app := { app with
                  scheduledDelaySeconds := i.delay
                  trialStartQpc := i.now
                  stimulusQpc := 0
                  inputQpc := 0
                  hasInput := false
                  inputWasFalseStart := false
                  phase := Phase.WaitingForStimulus }
        effects := [Effect.present 0]
        exit := none }
  | Phase.WaitingForStimulus =>
      if app.hasInput = true ∧ app.inputWasFalseStart = true then
        let idx := wrapInt32 (app.trialIndex + 1)
        { app := { app with
                    results := app.results ++ [⟨app.scheduledDelaySeconds, 0, true⟩]
                    trialIndex := idx
                    phase := nextPhase idx app.trialCount }
          effects := []
          exit := none }
      else
        let elapsed := QpcDeltaToSeconds (wrapInt64 (i.now - app.trialStartQpc)) app.qpcFreq
        if elapsed ≥ app.scheduledDelaySeconds then
          { app := { app with
                      stimulusQpc := Int.tdiv (wrapInt64 (i.t0 + i.t1)) 2
                      phase := Phase.WaitingForResponse }
            effects := [Effect.present 1]
            exit := none }
        else
          let remaining := app.scheduledDelaySeconds - elapsed
          if remaining > 3 / 1000 then
            { app := app, effects := [Effect.sleep 1], exit := none }
          else
            { app := app, effects := [Effect.switchToThread], exit := none }
  | Phase.WaitingForResponse =>
      if app.hasInput = true ∧ app.inputWasFalseStart = false then
        let reactionMs :=
          QpcDeltaToMilliseconds (wrapInt64 (app.inputQpc - app.stimulusQpc)) app.qpcFreq
        let idx := wrapInt32 (app.trialIndex + 1)
        { app := { app with
                    results := app.results ++ [⟨app.scheduledDelaySeconds, reactionMs, false⟩]
                    trialIndex := idx
                    phase := nextPhase idx app.trialCount }
          effects := []
          exit := none }
      else
        { app := app, effects := [Effect.switchToThread], exit := none }
  | Phase.Finished =>
      { app := app, effects := [], exit := some SessionOutcome.Completed }

/-- One pass through the body of `while (sessionActive)`. -/
def loopIteration (app : App) (i : IterInput) : IterOut :=
  let app1 := PumpMessages app i.msgs
  if app1.quitRequested = true then
    { app := app1, effects := [], exit := some SessionOutcome.QuitRequested }
  else if app1.escapePressed = true then
    { app := app1, effects := [], exit := some SessionOutcome.Aborted }
  else
    phaseStep app1 i

/-- What the loop has produced after a list of iteration inputs: `outcome` is
`none` while the loop is still running when the inputs are used up. -/
structure RunOut where
  app : App
  effects : List Effect
  outcome : Option SessionOutcome
  deriving DecidableEq, Repr

/-- The loop `while (sessionActive)`, one iteration per element of `inputs`;
inputs after the iteration that leaves the loop are not consumed. -/
def runLoop (app : App) : List IterInput → RunOut
  | [] => { app := app, effects := [], outcome := none }
  | i :: rest =>
      let o := loopIteration app i
      match o.exit with
      | some out => { app := o.app, effects := o.effects, outcome := some out }
      | none =>
          let r := runLoop o.app rest
          { app := r.app, effects := o.effects ++ r.effects, outcome := r.outcome }

/-- The session `RunTestSession`: reset, then the loop. -/
def RunTestSession (app : App) (inputs : List IterInput) : RunOut :=
  runLoop (ResetSessionState app) inputs

/-! ## Result aggregation and export -/

/-- The accumulation loop of `ComputeAverageReactionMs`: the running pair
`(total, validCount)` after the remaining results. -/
def averageLoop : List TrialResult → ℚ × Nat → ℚ × Nat
  | [], acc => acc
  | trial :: rest, acc =>
      if trial.falseStart = false then
        averageLoop rest (acc.1 + trial.reactionMs, acc.2 + 1)
      else
        averageLoop rest acc

def ComputeAverageReactionMs (results : List TrialResult) : ℚ :=
  let acc := averageLoop results (0, 0)
  if acc.2 = 0 then 0 else acc.1 / (acc.2 : ℚ)

/-- The counting loop of `ExportResultsJson`: `(validCount, falseStartCount)`. -/
def countLoop : List TrialResult → Nat × Nat → Nat × Nat
  | [], acc => acc
  | trial :: rest, acc =>
      if trial.falseStart = true then countLoop rest (acc.1, acc.2 + 1)
      else countLoop rest (acc.1 + 1, acc.2)

/-- The per-trial rows of `ExportResultsCsv`, from zero-based index `i` on;
`fmt` is the stream's `std::fixed`, six-digit formatting of a `double`. -/
def csvRows (fmt : ℚ → String) : Nat → List TrialResult → String
  | _, [] => ""
  | i, trial :: rest =>
      toString (i + 1) ++ "," ++ fmt trial.delaySeconds ++ "," ++
        (if trial.falseStart = true then ",1\n" else fmt trial.reactionMs ++ ",0\n") ++
        csvRows fmt (i + 1) rest

/-- Trailing row of `ExportResultsCsv`. -/
def csvAverageRow (fmt : ℚ → String) (results : List TrialResult) : String :=
  "average,," ++ fmt (ComputeAverageReactionMs results) ++ ",\n"

/-- The text `ExportResultsCsv` writes, or `none` when it returns `false`
because there are no results.  The stream is taken to open and stay good. -/
def ExportResultsCsv (fmt : ℚ → String) (results : List TrialResult) : Option String :=
  if results.isEmpty then none
  else
    some ("trial,random_delay_seconds,reaction_ms,false_start\n" ++
      csvRows fmt 0 results ++ csvAverageRow fmt results)

/-- The value written after `"average_reaction_ms": ` by `ExportResultsJson`. -/
def jsonAverageField (fmt : ℚ → String) (results : List TrialResult) : String :=
  if (countLoop results (0, 0)).1 > 0 then fmt (ComputeAverageReactionMs results)
  else "null"

/-- The entries of the `"trials"` array of `ExportResultsJson`; `n` is
`results.size()`. -/
def jsonRows (fmt : ℚ → String) (n : Nat) : Nat → List TrialResult → String
  | _, [] => ""
  | i, trial :: rest =>
      "    \x7b\"trial\": " ++ toString (i + 1) ++
        ", \"random_delay_seconds\": " ++ fmt trial.delaySeconds ++
        ", \"reaction_ms\": " ++
        (if trial.falseStart = true then "null" else fmt trial.reactionMs) ++
        ", \"false_start\": " ++ (if trial.falseStart = true then "true" else "false") ++
        "\x7d" ++ (if i + 1 < n then "," else "") ++ "\n" ++
        jsonRows fmt n (i + 1) rest

/-- The text `ExportResultsJson` writes, or `none` when it returns `false`
because there are no results.  The stream is taken to open and stay good. -/
def ExportResultsJson (fmt : ℚ → String) (results : List TrialResult) : Option String :=
  if results.isEmpty then none
  else
    let counts := countLoop results (0, 0)
    some ("\x7b\n" ++
      "  \"trial_count\": " ++ toString results.length ++ ",\n" ++
      "  \"valid_count\": " ++ toString counts.1 ++ ",\n" ++
      "  \"false_start_count\": " ++ toString counts.2 ++ ",\n" ++
      "  \"average_reaction_ms\": " ++ jsonAverageField fmt results ++ ",\n" ++
      "  \"trials\": [\n" ++
      jsonRows fmt results.length 0 results ++
      "  ]\n" ++
      "\x7d\n")

/-- The text one pass of the row loop of `ExportResultsCsv` writes for the
trial with zero-based index `i`. -/
def csvRow (fmt : ℚ → String) (i : Nat) (trial : TrialResult) : String :=
  toString (i + 1) ++ "," ++ fmt trial.delaySeconds ++ "," ++
    (if trial.falseStart = true then ",1\n" else fmt trial.reactionMs ++ ",0\n")

/-- The text one pass of the `"trials"` loop of `ExportResultsJson` writes for
the trial with zero-based index `i`; `n` is `results.size()`. -/
def jsonRow (fmt : ℚ → String) (n i : Nat) (trial : TrialResult) : String :=
  "    \x7b\"trial\": " ++ toString (i + 1) ++
    ", \"random_delay_seconds\": " ++ fmt trial.delaySeconds ++
    ", \"reaction_ms\": " ++
    (if trial.falseStart = true then "null" else fmt trial.reactionMs) ++
    ", \"false_start\": " ++ (if trial.falseStart = true then "true" else "false") ++
    "\x7d" ++ (if i + 1 < n then "," else "") ++ "\n"

/-- The text `ExportResultsJson` writes before the entries of `"trials"`. -/
def jsonPreamble (fmt : ℚ → String) (results : List TrialResult) : String :=
  "\x7b\n" ++
    "  \"trial_count\": " ++ toString results.length ++ ",\n" ++
    "  \"valid_count\": " ++ toString (countLoop results (0, 0)).1 ++ ",\n" ++
    "  \"false_start_count\": " ++ toString (countLoop results (0, 0)).2 ++ ",\n" ++
    "  \"average_reaction_ms\": " ++ jsonAverageField fmt results ++ ",\n" ++
    "  \"trials\": [\n"

/-- The reaction times the specification averages: those of the results with
`falseStart = false`, in order. -/
def validReactions (results : List TrialResult) : List ℚ :=
  (results.filter (fun t => !t.falseStart)).map TrialResult.reactionMs

/-- Two results that differ at most in the `reactionMs` of a false start. -/
def sameUpToFalseStartReaction (a b : TrialResult) : Prop :=
  a.falseStart = b.falseStart ∧ a.delaySeconds = b.delaySeconds ∧
    (a.falseStart = false → a.reactionMs = b.reactionMs)

/-! ## Configuration: command line and settings page -/

inductive ArgParseResult where
  | Ok
  | ExitRequested
  | Error
  deriving DecidableEq, Repr

/-- The C runtime conversions the parsers call.  `some v` stands for a call
that consumed the whole, non-empty text and returned `v`; `none` for a call
that consumed nothing or stopped before the end of the text.  The floating
conversions return any `double`: they read `nan` as NaN and `inf` as an
infinity. -/
structure CRuntime where
  wcstod : String → Option CDouble
  wcstol : String → Option Int
  strtod : String → Option CDouble
  strtol : String → Option Int

/-- The parser `TryParseDoubleW`: the value stored in `out`, or `none` when it
returns `false`. -/
def TryParseDoubleW (rt : CRuntime) (value : String) : Option CDouble :=
  if value = "" then none else rt.wcstod value

/-- The parser `TryParseIntW`: the value stored in `out`, or `none` when it
returns `false`. -/
def TryParseIntW (rt : CRuntime) (value : String) : Option Int :=
  if value = "" then none
  else
    match rt.wcstol value with
    | none => none
    | some parsed => if parsed < 1 ∨ parsed > 1000000 then none else some parsed

/-- The parser `TryParseIntNarrow`. -/
def TryParseIntNarrow (rt : CRuntime) (value : String) : Option Int :=
  if value = "" then none
  else
    match rt.strtol value with
    | none => none
    | some parsed => if parsed < 1 ∨ parsed > 1000000 then none else some parsed

/-- The parser `TryParseDoubleNarrow`. -/
def TryParseDoubleNarrow (rt : CRuntime) (value : String) : Option CDouble :=
  if value = "" then none else rt.strtod value

/-- The conversion `WideToUtf8`: the same text (empty for an empty argument). -/
def WideToUtf8 (value : String) : String :=
  if value = "" then "" else value

/-- The locals of `ParseArgs` when its `for` loop is left. -/
structure ArgLoopOut where
  app : App
  ok : Bool
  helpRequested : Bool
  deriving DecidableEq, Repr

/-- The `for` loop of `ParseArgs` over the arguments after the program name. -/
def parseArgsLoop (rt : CRuntime) : App → List String → ArgLoopOut
  | app, [] => { app := app, ok := true, helpRequested := false }
  | app, arg :: rest =>
      if arg = "--min-delay" then
        match rest with
        | [] => { app := app, ok := false, helpRequested := false }
        | v :: rest2 =>
            match TryParseDoubleW rt v with
            | none => { app := app, ok := false, helpRequested := false }
            | some x => parseArgsLoop rt { app with minDelaySeconds := x } rest2
      else if arg = "--max-delay" then
        match rest with
        | [] => { app := app, ok := false, helpRequested := false }
        | v :: rest2 =>
            match TryParseDoubleW rt v with
            | none => { app := app, ok := false, helpRequested := false }
            | some x => parseArgsLoop rt { app with maxDelaySeconds := x } rest2
      else if arg = "--trials" then
        match rest with
        | [] => { app := app, ok := false, helpRequested := false }
        | v :: rest2 =>
            match TryParseIntW rt v with
            | none => { app := app, ok := false, helpRequested := false }
            | some n => parseArgsLoop rt { app with trialCount := n } rest2
      else if arg = "--run-once" then
        parseArgsLoop rt { app with runOnceNoPrompt := true } rest
      else if arg = "--json-out" then
        match rest with
        | [] => { app := app, ok := false, helpRequested := false }
        | v :: rest2 =>
            if (WideToUtf8 v).isEmpty then
              { app := { app with jsonOutputPath := WideToUtf8 v }, ok := false,
                helpRequested := false }
            else parseArgsLoop rt { app with jsonOutputPath := WideToUtf8 v } rest2
      else if arg = "--csv-out" then
        match rest with
        | [] => { app := app, ok := false, helpRequested := false }
        | v :: rest2 =>
            if (WideToUtf8 v).isEmpty then
              { app := { app with csvOutputPath := WideToUtf8 v }, ok := false,
                helpRequested := false }
            else parseArgsLoop rt { app with csvOutputPath := WideToUtf8 v } rest2
      else if arg = "--help" ∨ arg = "-h" then
        { app := app, ok := true, helpRequested := true }
      else
        { app := app, ok := false, helpRequested := false }

/-- What `ParseArgs` returns together with the `App` it leaves behind. -/
structure ParseArgsOut where
  app : App
  result : ArgParseResult
  deriving DecidableEq, Repr

/-- The function `ParseArgs`; `argv` is what `CommandLineToArgvW` returned
(`none` for a null pointer), program name first. -/
def ParseArgs (rt : CRuntime) (app : App) (argv : Option (List String)) : ParseArgsOut :=
  match argv with
  | none => { app := app, result := ArgParseResult.Error }
  | some args =>
      let o := parseArgsLoop rt app (args.drop 1)
      if o.helpRequested = true then
        { app := o.app, result := ArgParseResult.ExitRequested }
      else if o.ok = false ∨ o.app.minDelaySeconds ≤ 0 ∨ o.app.maxDelaySeconds ≤ 0 ∨
          o.app.minDelaySeconds ≥ o.app.maxDelaySeconds then
        { app := o.app, result := ArgParseResult.Error }
      else
        { app := o.app, result := ArgParseResult.Ok }

/-- One pass of the `for (;;)` of `ShowSettingsPage` for a menu choice other
than 4; `line` is what `ReadLine` returned. -/
def settingsEdit (rt : CRuntime) (app : App) (choice : Int) (line : String) : App :=
  if choice = 1 then
    match TryParseDoubleNarrow rt line with
    | none => app
    | some value =>
        if value ≤ 0 ∨ value ≥ app.maxDelaySeconds then app
        else { app with minDelaySeconds := value }
  else if choice = 2 then
    match TryParseDoubleNarrow rt line with
    | none => app
    | some value =>
        if value ≤ app.minDelaySeconds then app
        else { app with maxDelaySeconds := value }
  else if choice = 3 then
    match TryParseIntNarrow rt line with
    | none => app
    | some value => { app with trialCount := value }
  else
    app

/-- The page `ShowSettingsPage`, driven by the menu choices `PromptChoice`
returns and the lines read after them; it ends at the first choice 4. -/
def ShowSettingsPage (rt : CRuntime) (app : App) : List (Int × String) → App
  | [] => app
  | (choice, line) :: rest =>
      if choice = 4 then app
      else ShowSettingsPage rt (settingsEdit rt app choice line) rest

/-- The configuration a session may be run with. -/
def ValidConfig (app : App) : Prop :=
  1 ≤ app.trialCount ∧ 0 < app.minDelaySeconds ∧ app.minDelaySeconds < app.maxDelaySeconds

instance (app : App) : Decidable (ValidConfig app) :=
  inferInstanceAs (Decidable (_ ∧ _ ∧ _))

/-- Value of a decimal digit. -/
def digitValue (c : Char) : Option Nat :=
  if '0' ≤ c ∧ c ≤ '9' then some (c.toNat - 48) else none

/-- Reads a run of decimal digits. -/
def readDigits : List Char → Nat → Option Nat
  | [], acc => some acc
  | c :: cs, acc =>
      match digitValue c with
      | none => none
      | some d => readDigits cs (acc * 10 + d)

/-- Reads an optionally negated, non-empty run of decimal digits. -/
def readDecimal (s : String) : Option Int :=
  match s.data with
  | [] => none
  | '-' :: c :: cs => (readDigits (c :: cs) 0).map (fun n => -(n : Int))
  | c :: cs => (readDigits (c :: cs) 0).map (fun n => (n : Int))

/-- Reads the texts `nan`, `inf`, `-inf` and plain decimal integers the way
`wcstod` and `strtod` read them (they accept more texts than these). -/
def readDouble (s : String) : Option CDouble :=
  if s = "nan" then some CDouble.nan
  else if s = "inf" then some CDouble.posInf
  else if s = "-inf" then some CDouble.negInf
  else (readDecimal s).map (fun n => CDouble.finite (n : ℚ))

/-- A runtime whose conversions read plain decimal integers and, for the
floating ones, `nan` and `inf`, which the C conversions read the same way. -/
def sampleRuntime : CRuntime :=
  { wcstod := readDouble
    wcstol := readDecimal
    strtod := readDouble
    strtol := readDecimal }

/-! ## Clock assumptions -/

/-- Every clock reading an iteration can consume, in program order. -/
def IterInput.readings (i : IterInput) : List Int :=
  i.msgs.map PumpedMsg.qpc ++ [i.now, i.t0, i.t1]

/-- The readings of a run, in program order. -/
def allReadings : List IterInput → List Int
  | [] => []
  | i :: rest => i.readings ++ allReadings rest

/-- Starting from a lower bound `c`, the readings never decrease and stay
below `2 ^ 62` (so that the sum of two readings fits a `LONGLONG`). -/
def readingsFrom (c : Int) : List Int → Prop
  | [] => True
  | r :: rest => c ≤ r ∧ r < 2 ^ 62 ∧ readingsFrom r rest

instance readingsFromDecidable : (c : Int) → (rs : List Int) → Decidable (readingsFrom c rs)
  | _, [] => isTrue trivial
  | c, r :: rest =>
      have _ := readingsFromDecidable r rest
      inferInstanceAs (Decidable (c ≤ r ∧ r < 2 ^ 62 ∧ readingsFrom r rest))

/-- A monotonic performance counter: the readings consumed by the run are
non-negative, non-decreasing in program order and below `2 ^ 62`. -/
def MonotonicClock (inputs : List IterInput) : Prop :=
  readingsFrom 0 (allReadings inputs)

instance (inputs : List IterInput) : Decidable (MonotonicClock inputs) :=
  inferInstanceAs (Decidable (readingsFrom 0 (allReadings inputs)))

/-! ## Invariants of the session loop -/

/-- The trial counter agrees with the number of recorded results, and the
phase is `Finished` exactly when the counter has reached its final value. -/
def SessionInv (app : App) : Prop :=
  app.trialIndex = (app.results.length : Int) ∧
  (app.phase ≠ Phase.Finished → app.trialIndex < max 1 app.trialCount) ∧
  (app.phase = Phase.Finished → app.trialIndex = max 1 app.trialCount)

/-- The fields no message can change. -/
def PumpFrame (a b : App) : Prop :=
  b.results = a.results ∧ b.trialIndex = a.trialIndex ∧ b.phase = a.phase ∧
  b.trialCount = a.trialCount ∧ b.qpcFreq = a.qpcFreq ∧
  b.scheduledDelaySeconds = a.scheduledDelaySeconds ∧
  b.stimulusQpc = a.stimulusQpc ∧ b.trialStartQpc = a.trialStartQpc

/-- Timing invariant relative to the latest clock reading `c`: the stimulus
timestamp is a past reading; a press latched while waiting for the stimulus is
a false start; a press latched while waiting for the response is not, and its
timestamp lies between the stimulus timestamp and `c`. -/
def TimeInv (c : Int) (app : App) : Prop :=
  0 ≤ app.stimulusQpc ∧ app.stimulusQpc ≤ c ∧ c < 2 ^ 62 ∧
  (app.phase = Phase.WaitingForStimulus → app.hasInput = true →
    app.inputWasFalseStart = true) ∧
  (app.phase = Phase.WaitingForResponse → app.hasInput = true →
    app.inputWasFalseStart = false ∧ app.stimulusQpc ≤ app.inputQpc ∧ app.inputQpc ≤ c)

/-- Relative to the results `r0` present when a trial began and the delay `d`
drawn for it: either that trial is still pending with the same scheduled
delay, or some result has been appended since. -/
def SameTrial (r0 : List TrialResult) (d : ℚ) (app : App) : Prop :=
  (app.results = r0 ∧ app.scheduledDelaySeconds = d ∧
    (app.phase = Phase.WaitingForStimulus ∨ app.phase = Phase.WaitingForResponse)) ∨
  r0.length < app.results.length

/-- Latch invariant, independent of the clock: while waiting for the stimulus
no stimulus timestamp is stored and a latched press is a false start; while
waiting for the response a latched press is not a false start. -/
def LatchInv (app : App) : Prop :=
  (app.phase = Phase.WaitingForStimulus →
    app.stimulusQpc = 0 ∧ (app.hasInput = true → app.inputWasFalseStart = true)) ∧
  (app.phase = Phase.WaitingForResponse →
    app.hasInput = true → app.inputWasFalseStart = false)

/-! ## Concrete sessions used to exercise the definitions -/

/-- The member initialisers of `struct App`, with the counter frequency
`wWinMain` stores before any session. -/
def defaultApp (freq : Int) : App :=
  { qpcFreq := freq
    trialCount := 10
    minDelaySeconds := 2
    maxDelaySeconds := 5
    trialIndex := 0
    phase := Phase.BeginTrial
    hasInput := false
    inputWasFalseStart := false
    escapePressed := false
    quitRequested := false
    trialStartQpc := 0
    stimulusQpc := 0
    inputQpc := 0
    scheduledDelaySeconds := 0
    delayDist := (2, 5)
    results := []
    runOnceNoPrompt := false
    jsonOutputPath := ""
    csvOutputPath := "" }

/-- A one-trial configuration (`--trials 1`) on a 1 kHz counter. -/
def oneTrialApp : App :=
  { defaultApp 1000 with trialCount := 1 }

/-- The `App` of `wWinMain` when `ParseArgs` is called: member initialisers,
frequency not yet queried. -/
def startupApp : App := defaultApp 0

/-- Six-digit fixed formatting of a rational, rounding half up: a stand-in, in
examples, for what the stream prints under `std::fixed` and
`std::setprecision(6)`. -/
def fixed6 (x : ℚ) : String :=
  let scaled : Int := Rat.floor (x * 1000000 + 1 / 2)
  let frac : String := toString (scaled.natAbs % 1000000)
  (if scaled < 0 then "-" else "") ++ toString (scaled.natAbs / 1000000) ++ "." ++
    String.mk (List.replicate (6 - frac.length) '0') ++ frac

/-- An iteration with an empty message queue. -/
def quietIter (now : Int) : IterInput :=
  { msgs := [], now := now, delay := 5 / 2, t0 := now, t1 := now }

/-- An iteration whose queue holds one key-down of the space bar. -/
def pressIter (now : Int) : IterInput :=
  { msgs := [⟨Msg.keyboard false 0x20, now⟩], now := now, delay := 5 / 2, t0 := now, t1 := now }

/-- An iteration whose queue holds one key-down of Esc. -/
def escapeIter (now : Int) : IterInput :=
  { msgs := [⟨Msg.keyboard false VK_ESCAPE, now⟩], now := now, delay := 5 / 2,
    t0 := now, t1 := now }

/-- An iteration whose queue holds `WM_CLOSE`. -/
def closeIter (now : Int) : IterInput :=
  { msgs := [⟨Msg.close, now⟩], now := now, delay := 5 / 2, t0 := now, t1 := now }

/-- Begin the trial, press too early, then Esc arrives once the only trial has
been recorded. -/
def lateEscapeRun : List IterInput :=
  [quietIter 10, pressIter 20, escapeIter 30]

/-- Begin the trial, wait 2.5 s, see the stimulus, answer 150 ms later, and let
the loop notice `Finished`. -/
def validRun : List IterInput :=
  [quietIter 10, quietIter 2510, pressIter 2660, quietIter 2670]

/-- An iteration with an empty queue in which the presentation call is
bracketed by the readings 2511 and 2526. -/
def stimulusIter : IterInput :=
  { msgs := [], now := 2510, delay := 5 / 2, t0 := 2511, t1 := 2526 }

/-- The one-trial session just after its `BeginTrial` step at reading 10. -/
def waitingApp : App :=
  (RunTestSession oneTrialApp [quietIter 10]).app

/-! ## Machine-integer lemmas -/

theorem wrapInt64_of_range {x : Int} (h1 : -2 ^ 63 ≤ x) (h2 : x < 2 ^ 63) :
    wrapInt64 x = x := by
  unfold wrapInt64
  omega

theorem wrapInt32_of_range {x : Int} (h1 : -2 ^ 31 ≤ x) (h2 : x < 2 ^ 31) :
    wrapInt32 x = x := by
  unfold wrapInt32
  omega

/-! ## The message pump only touches the latch and the two signal flags -/

theorem PumpFrame.refl (a : App) : PumpFrame a a := by
  simp [PumpFrame]

theorem PumpFrame.trans {a b c : App} (h1 : PumpFrame a b) (h2 : PumpFrame b c) :
    PumpFrame a c := by
  obtain ⟨p1, p2, p3, p4, p5, p6, p7, p8⟩ := h1
  obtain ⟨q1, q2, q3, q4, q5, q6, q7, q8⟩ := h2
  exact ⟨q1.trans p1, q2.trans p2, q3.trans p3, q4.trans p4, q5.trans p5, q6.trans p6,
    q7.trans p7, q8.trans p8⟩

theorem RecordRawInputPress_frame (app : App) (qpc : Int) :
    PumpFrame app (RecordRawInputPress app qpc) := by
  unfold RecordRawInputPress
  split_ifs <;> simp [PumpFrame]

theorem WindowProc_frame (app : App) (msg : Msg) (qpc : Int) :
    PumpFrame app (WindowProc app msg qpc) := by
  cases msg with
  | keyboard isBreak vkey =>
      simp only [WindowProc]
      split_ifs
      · exact PumpFrame.refl app
      · simp [PumpFrame]
      · exact RecordRawInputPress_frame app qpc
  | mouse f =>
      simp only [WindowProc]
      split_ifs
      · exact RecordRawInputPress_frame app qpc
      · exact PumpFrame.refl app
  | close => simp [WindowProc, PumpFrame]
  | destroy => simp [WindowProc, PumpFrame]
  | quit => exact PumpFrame.refl app
  | other => exact PumpFrame.refl app

theorem pumpOne_frame (app : App) (m : PumpedMsg) : PumpFrame app (pumpOne app m) := by
  have h := WindowProc_frame app m.msg m.qpc
  unfold pumpOne
  split_ifs
  · exact PumpFrame.trans h (by simp [PumpFrame])
  · exact h

theorem PumpMessages_frame (app : App) (msgs : List PumpedMsg) :
    PumpFrame app (PumpMessages app msgs) := by
  induction msgs generalizing app with
  | nil => exact PumpFrame.refl app
  | cons m rest ih =>
      exact PumpFrame.trans (pumpOne_frame app m) (ih (pumpOne app m))

/-! ## Preservation of `SessionInv` -/

theorem SessionInv.of_frame {a b : App} (h : PumpFrame a b) (ha : SessionInv a) :
    SessionInv b := by
  obtain ⟨p1, p2, p3, p4, -⟩ := h
  unfold SessionInv at *
  rw [p1, p2, p3, p4]
  exact ha

theorem ResetSessionState_inv (app : App) : SessionInv (ResetSessionState app) := by
  simp [SessionInv, ResetSessionState]

theorem phaseStep_trialCount (app : App) (i : IterInput) :
    (phaseStep app i).app.trialCount = app.trialCount := by
  unfold phaseStep
  split <;> dsimp only <;> (try split_ifs) <;> rfl

theorem phaseStep_inv (app : App) (i : IterInput) (hc : app.trialCount < 2 ^ 31)
    (h : SessionInv app) : SessionInv (phaseStep app i).app := by
  obtain ⟨h1, h2, h3⟩ := h
  have hlen : (0 : Int) ≤ (app.results.length : Int) := Int.natCast_nonneg _
  have hw : app.phase ≠ Phase.Finished →
      wrapInt32 (app.trialIndex + 1) = app.trialIndex + 1 := fun hp =>
    wrapInt32_of_range (by omega) (by have := h2 hp; omega)
  unfold phaseStep
  split
  · rename_i hp
    refine ⟨h1, fun _ => h2 (by simp [hp]), fun hf => ?_⟩
    simp at hf
  · rename_i hp
    have hne : app.phase ≠ Phase.Finished := by simp [hp]
    dsimp only
    split_ifs
    · rw [hw hne]
      unfold SessionInv nextPhase
      dsimp only
      refine ⟨by simp; omega, fun hq => ?_, fun hq => ?_⟩
      · have := h2 hne
        split_ifs at hq with hge
        · exact absurd rfl hq
        · omega
      · have := h2 hne
        split_ifs at hq with hge
        · omega
    · exact ⟨h1, fun _ => h2 hne, fun hf => by simp at hf⟩
    · exact ⟨h1, h2, h3⟩
    · exact ⟨h1, h2, h3⟩
  · rename_i hp
    have hne : app.phase ≠ Phase.Finished := by simp [hp]
    dsimp only
    split_ifs
    · rw [hw hne]
      unfold SessionInv nextPhase
      dsimp only
      refine ⟨by simp; omega, fun hq => ?_, fun hq => ?_⟩
      · have := h2 hne
        split_ifs at hq with hge
        · exact absurd rfl hq
        · omega
      · have := h2 hne
        split_ifs at hq with hge
        · omega
    · exact ⟨h1, h2, h3⟩
  · exact ⟨h1, h2, h3⟩

theorem loopIteration_trialCount (app : App) (i : IterInput) :
    (loopIteration app i).app.trialCount = app.trialCount := by
  have hf := (PumpMessages_frame app i.msgs).2.2.2.1
  unfold loopIteration
  dsimp only
  split_ifs
  · exact hf
  · exact hf
  · rw [phaseStep_trialCount, hf]

theorem loopIteration_inv (app : App) (i : IterInput) (hc : app.trialCount < 2 ^ 31)
    (h : SessionInv app) : SessionInv (loopIteration app i).app := by
  have hf := PumpMessages_frame app i.msgs
  have hp : SessionInv (PumpMessages app i.msgs) := SessionInv.of_frame hf h
  unfold loopIteration
  dsimp only
  split_ifs
  · exact hp
  · exact hp
  · exact phaseStep_inv _ i (by rw [hf.2.2.2.1]; exact hc) hp

theorem runLoop_trialCount (app : App) (inputs : List IterInput) :
    (runLoop app inputs).app.trialCount = app.trialCount := by
  induction inputs generalizing app with
  | nil => rfl
  | cons i rest ih =>
      unfold runLoop
      dsimp only
      split
      · exact loopIteration_trialCount app i
      · rw [ih, loopIteration_trialCount]

theorem runLoop_inv (app : App) (inputs : List IterInput) (hc : app.trialCount < 2 ^ 31)
    (h : SessionInv app) : SessionInv (runLoop app inputs).app := by
  induction inputs generalizing app with
  | nil => exact h
  | cons i rest ih =>
      unfold runLoop
      dsimp only
      split
      · exact loopIteration_inv app i hc h
      · exact ih _ (by rw [loopIteration_trialCount]; exact hc) (loopIteration_inv app i hc h)

theorem ResetSessionState_trialCount (app : App) :
    (ResetSessionState app).trialCount = app.trialCount := rfl

theorem RunTestSession_inv (app : App) (inputs : List IterInput)
    (hc : app.trialCount < 2 ^ 31) : SessionInv (RunTestSession app inputs).app :=
  runLoop_inv _ inputs hc (ResetSessionState_inv app)

theorem RunTestSession_trialCount (app : App) (inputs : List IterInput) :
    (RunTestSession app inputs).app.trialCount = app.trialCount := by
  unfold RunTestSession
  rw [runLoop_trialCount, ResetSessionState_trialCount]

/-- The loop is left with `Completed` only from the `Finished` case. -/
theorem loopIteration_completed (app : App) (i : IterInput)
    (h : (loopIteration app i).exit = some SessionOutcome.Completed) :
    (loopIteration app i).app.phase = Phase.Finished := by
  unfold loopIteration at h ⊢
  dsimp only at h ⊢
  split_ifs at h ⊢
  · simp at h
  · simp at h
  · unfold phaseStep at h ⊢
    split at h <;> dsimp only at h ⊢ <;> (try split_ifs at h) <;> simp at h
    assumption

theorem runLoop_completed (app : App) (inputs : List IterInput)
    (h : (runLoop app inputs).outcome = some SessionOutcome.Completed) :
    (runLoop app inputs).app.phase = Phase.Finished := by
  induction inputs generalizing app with
  | nil => simp [runLoop] at h
  | cons i rest ih =>
      unfold runLoop at h ⊢
      dsimp only at h ⊢
      split at h
      · rename_i out he
        have : out = SessionOutcome.Completed := by simpa using h
        subst this
        exact loopIteration_completed app i he
      · exact ih _ h

/-! ## Preservation of `TimeInv` under a monotonic clock -/

theorem allReadings_append (xs ys : List IterInput) :
    allReadings (xs ++ ys) = allReadings xs ++ allReadings ys := by
  induction xs with
  | nil => rfl
  | cons x rest ih => simp [allReadings, ih]

theorem TimeInv.mono {c d : Int} {app : App} (h : TimeInv c app) (hcd : c ≤ d)
    (hd : d < 2 ^ 62) : TimeInv d app := by
  obtain ⟨h1, h2, _, h4, h5⟩ := h
  refine ⟨h1, by omega, hd, h4, fun hp hi => ?_⟩
  obtain ⟨a, b, e⟩ := h5 hp hi
  exact ⟨a, b, by omega⟩

theorem ResetSessionState_timeInv (app : App) : TimeInv 0 (ResetSessionState app) := by
  simp [TimeInv, ResetSessionState]

theorem RecordRawInputPress_timeInv {c q : Int} {app : App} (h : TimeInv c app)
    (hcq : c ≤ q) (hq : q < 2 ^ 62) : TimeInv q (RecordRawInputPress app q) := by
  have hm := h.mono hcq hq
  obtain ⟨h1, h2, h3, h4, h5⟩ := hm
  unfold RecordRawInputPress
  split_ifs with ha hb
  · exact ⟨h1, h2, h3, fun hp => by simp [ha.1] at hp, fun _ _ => ⟨rfl, h2, le_refl q⟩⟩
  · exact ⟨h1, h2, h3, fun _ _ => rfl, fun hp => by simp [hb.1] at hp⟩
  · exact ⟨h1, h2, h3, h4, h5⟩

theorem pumpOne_timeInv {c : Int} {app : App} (m : PumpedMsg) (h : TimeInv c app)
    (hcq : c ≤ m.qpc) (hq : m.qpc < 2 ^ 62) : TimeInv m.qpc (pumpOne app m) := by
  have hm := h.mono hcq hq
  have hr := RecordRawInputPress_timeInv h hcq hq
  have hw : TimeInv m.qpc (WindowProc app m.msg m.qpc) := by
    cases hmsg : m.msg with
    | keyboard isBreak vkey =>
        simp only [WindowProc]
        split_ifs
        · exact hm
        · exact hm
        · exact hr
    | mouse f =>
        simp only [WindowProc]
        split_ifs
        · exact hr
        · exact hm
    | close => exact hm
    | destroy => exact hm
    | quit => exact hm
    | other => exact hm
  unfold pumpOne
  dsimp only
  split_ifs
  · exact hw
  · exact hw

theorem PumpMessages_timeInv (msgs : List PumpedMsg) (app : App) (c : Int)
    (rest : List Int) (h : TimeInv c app)
    (hr : readingsFrom c (msgs.map PumpedMsg.qpc ++ rest)) :
    ∃ d, TimeInv d (PumpMessages app msgs) ∧ readingsFrom d rest := by
  induction msgs generalizing app c with
  | nil => exact ⟨c, h, hr⟩
  | cons m tail ih =>
      obtain ⟨h1, h2, h3⟩ := hr
      exact ih (pumpOne app m) m.qpc (pumpOne_timeInv m h h1 h2) h3

theorem phaseStep_timeInv {c : Int} {app : App} (i : IterInput) (h : TimeInv c app)
    (hnow : c ≤ i.now) (h0 : i.now ≤ i.t0) (h1 : i.t0 ≤ i.t1) (h2 : i.t1 < 2 ^ 62) :
    TimeInv i.t1 (phaseStep app i).app := by
  have hm : TimeInv i.t1 app := h.mono (by omega) h2
  obtain ⟨a1, a2, a3, a4, a5⟩ := hm
  have hc0 : 0 ≤ c := le_trans h.1 h.2.1
  unfold phaseStep
  split
  · exact ⟨le_refl 0, by dsimp only; omega, a3, fun _ hi => by simp at hi,
      fun hp => by simp at hp⟩
  · rename_i hp
    dsimp only
    split_ifs with hfs hel hrem
    · refine ⟨a1, a2, a3, fun hq => ?_, fun hq => ?_⟩
      · exfalso
        revert hq
        unfold nextPhase
        dsimp only
        split_ifs <;> simp
      · exfalso
        revert hq
        unfold nextPhase
        dsimp only
        split_ifs <;> simp
    · have hsum : wrapInt64 (i.t0 + i.t1) = i.t0 + i.t1 :=
        wrapInt64_of_range (by omega) (by omega)
      have hdiv : Int.tdiv (i.t0 + i.t1) 2 = (i.t0 + i.t1) / 2 :=
        Int.tdiv_eq_ediv (by omega) (by omega)
      have hni : app.hasInput = false := by
        by_contra hne
        have hi : app.hasInput = true := by simpa using hne
        exact hfs ⟨hi, a4 hp hi⟩
      refine ⟨?_, ?_, a3, fun hq => by simp at hq, fun _ hi => ?_⟩
      · dsimp only
        rw [hsum, hdiv]
        omega
      · dsimp only
        rw [hsum, hdiv]
        omega
      · dsimp only at hi
        rw [hni] at hi
        simp at hi
    · exact ⟨a1, a2, a3, a4, a5⟩
    · exact ⟨a1, a2, a3, a4, a5⟩
  · rename_i hp
    dsimp only
    split_ifs with hv
    · refine ⟨a1, a2, a3, fun hq => ?_, fun hq => ?_⟩
      · exfalso
        revert hq
        unfold nextPhase
        dsimp only
        split_ifs <;> simp
      · exfalso
        revert hq
        unfold nextPhase
        dsimp only
        split_ifs <;> simp
    · exact ⟨a1, a2, a3, a4, a5⟩
  · exact ⟨a1, a2, a3, a4, a5⟩

theorem loopIteration_timeInv (app : App) (i : IterInput) (c : Int) (rest : List Int)
    (h : TimeInv c app) (hr : readingsFrom c (i.readings ++ rest)) :
    ∃ d, TimeInv d (loopIteration app i).app ∧ readingsFrom d rest := by
  have hr2 : readingsFrom c (i.msgs.map PumpedMsg.qpc ++ (i.now :: i.t0 :: i.t1 :: rest)) := by
    simpa [IterInput.readings] using hr
  obtain ⟨d, hd, hrd⟩ := PumpMessages_timeInv i.msgs app c _ h hr2
  obtain ⟨r1, _, r3, _, r5, r6, r7⟩ := hrd
  refine ⟨i.t1, ?_, r7⟩
  unfold loopIteration
  dsimp only
  split_ifs
  · exact hd.mono (by omega) r6
  · exact hd.mono (by omega) r6
  · exact phaseStep_timeInv i hd r1 r3 r5 r6

theorem runLoop_timeInv (inputs : List IterInput) (app : App) (c : Int) (rest : List Int)
    (h : TimeInv c app) (hr : readingsFrom c (allReadings inputs ++ rest)) :
    ∃ d, TimeInv d (runLoop app inputs).app ∧ readingsFrom d rest := by
  induction inputs generalizing app c with
  | nil => exact ⟨c, h, hr⟩
  | cons i tail ih =>
      have hr2 : readingsFrom c (i.readings ++ (allReadings tail ++ rest)) := by
        simpa [allReadings] using hr
      obtain ⟨d, hd, hrd⟩ := loopIteration_timeInv app i c _ h hr2
      unfold runLoop
      dsimp only
      split
      · have hlast : ∀ (xs : List Int) (e : Int), readingsFrom e (xs ++ rest) →
            TimeInv e (loopIteration app i).app →
            ∃ f, TimeInv f (loopIteration app i).app ∧ readingsFrom f rest := by
          intro xs
          induction xs with
          | nil => exact fun e he hte => ⟨e, hte, he⟩
          | cons x xs ihx =>
              exact fun e he hte => ihx x he.2.2 (hte.mono he.1 he.2.1)
        exact hlast _ d hrd hd
      · exact ih _ d hd hrd

theorem phaseStep_qpcFreq (app : App) (i : IterInput) :
    (phaseStep app i).app.qpcFreq = app.qpcFreq := by
  unfold phaseStep
  split <;> dsimp only <;> (try split_ifs) <;> rfl

theorem loopIteration_qpcFreq (app : App) (i : IterInput) :
    (loopIteration app i).app.qpcFreq = app.qpcFreq := by
  have hf := (PumpMessages_frame app i.msgs).2.2.2.2.1
  unfold loopIteration
  dsimp only
  split_ifs
  · exact hf
  · exact hf
  · rw [phaseStep_qpcFreq, hf]

theorem runLoop_qpcFreq (app : App) (inputs : List IterInput) :
    (runLoop app inputs).app.qpcFreq = app.qpcFreq := by
  induction inputs generalizing app with
  | nil => rfl
  | cons i rest ih =>
      unfold runLoop
      dsimp only
      split
      · exact loopIteration_qpcFreq app i
      · rw [ih, loopIteration_qpcFreq]

/-- The `WaitingForResponse` case of the switch. -/
theorem phaseStep_response (app : App) (i : IterInput)
    (hp : app.phase = Phase.WaitingForResponse) :
    phaseStep app i =
      if app.hasInput = true ∧ app.inputWasFalseStart = false then
        { app := { app with
                    results := app.results ++ [⟨app.scheduledDelaySeconds,
                      QpcDeltaToMilliseconds (wrapInt64 (app.inputQpc - app.stimulusQpc))
                        app.qpcFreq, false⟩]
                    trialIndex := wrapInt32 (app.trialIndex + 1)
                    phase := nextPhase (wrapInt32 (app.trialIndex + 1)) app.trialCount }
          effects := []
          exit := none }
      else
        { app := app, effects := [Effect.switchToThread], exit := none } := by
  simp only [phaseStep, hp]

/-- The `WaitingForStimulus` case of the switch when a false start is latched. -/
theorem phaseStep_falseStart (app : App) (i : IterInput)
    (hp : app.phase = Phase.WaitingForStimulus) (hi : app.hasInput = true)
    (hf : app.inputWasFalseStart = true) :
    phaseStep app i =
      { app := { app with
                  results := app.results ++ [⟨app.scheduledDelaySeconds, 0, true⟩]
                  trialIndex := wrapInt32 (app.trialIndex + 1)
                  phase := nextPhase (wrapInt32 (app.trialIndex + 1)) app.trialCount }
        effects := []
        exit := none } := by
  simp only [phaseStep, hp, hi, hf, and_self, if_true]

/-! ## The latch survives the rest of the pump; the delay survives the trial -/

theorem RecordRawInputPress_latched (app : App) (qpc : Int) (h : app.hasInput = true) :
    RecordRawInputPress app qpc = app := by
  unfold RecordRawInputPress
  simp [h]

theorem pumpOne_latched (app : App) (m : PumpedMsg) (h : app.hasInput = true) :
    (pumpOne app m).hasInput = true ∧
      (pumpOne app m).inputWasFalseStart = app.inputWasFalseStart ∧
      (pumpOne app m).inputQpc = app.inputQpc := by
  have hr := RecordRawInputPress_latched app m.qpc h
  unfold pumpOne
  cases hm : m.msg with
  | keyboard isBreak vkey =>
      simp only [WindowProc, hr]
      split_ifs <;> simp [h]
  | mouse f =>
      simp only [WindowProc, hr]
      split_ifs <;> simp [h]
  | close => simp [WindowProc, h]
  | destroy => simp [WindowProc, h]
  | quit => simp [WindowProc, h]
  | other => simp [WindowProc, h]

theorem PumpMessages_latched (app : App) (msgs : List PumpedMsg) (h : app.hasInput = true) :
    (PumpMessages app msgs).hasInput = true ∧
      (PumpMessages app msgs).inputWasFalseStart = app.inputWasFalseStart ∧
      (PumpMessages app msgs).inputQpc = app.inputQpc := by
  induction msgs generalizing app with
  | nil => exact ⟨h, rfl, rfl⟩
  | cons m rest ih =>
      obtain ⟨a, b, c⟩ := pumpOne_latched app m h
      obtain ⟨a2, b2, c2⟩ := ih (pumpOne app m) a
      exact ⟨a2, b2.trans b, c2.trans c⟩

/-- The `BeginTrial` case of the switch. -/
theorem phaseStep_begin (app : App) (i : IterInput) (hp : app.phase = Phase.BeginTrial) :
    phaseStep app i =
      { app := { app with
                  scheduledDelaySeconds := i.delay
                  trialStartQpc := i.now
                  stimulusQpc := 0
                  inputQpc := 0
                  hasInput := false
                  inputWasFalseStart := false
                  phase := Phase.WaitingForStimulus }
        effects := [Effect.present 0]
        exit := none } := by
  simp only [phaseStep, hp]

/-- What the switch can do to `results`, `trialIndex` and `phase`: nothing to
the first two, or (in one of the two waiting phases) append one result, count
it and choose the next phase. -/
theorem phaseStep_cases (app : App) (i : IterInput) :
    ((phaseStep app i).app.results = app.results ∧
        (phaseStep app i).app.trialIndex = app.trialIndex) ∨
      (∃ r, (phaseStep app i).app.results = app.results ++ [r] ∧
        (phaseStep app i).app.trialIndex = wrapInt32 (app.trialIndex + 1) ∧
        (phaseStep app i).app.phase =
          nextPhase (wrapInt32 (app.trialIndex + 1)) app.trialCount ∧
        app.phase ≠ Phase.Finished) := by
  unfold phaseStep
  split
  · exact Or.inl ⟨rfl, rfl⟩
  · rename_i hp
    dsimp only
    split_ifs
    · exact Or.inr ⟨_, rfl, rfl, rfl, by simp [hp]⟩
    · exact Or.inl ⟨rfl, rfl⟩
    · exact Or.inl ⟨rfl, rfl⟩
    · exact Or.inl ⟨rfl, rfl⟩
  · rename_i hp
    dsimp only
    split_ifs
    · exact Or.inr ⟨_, rfl, rfl, rfl, by simp [hp]⟩
    · exact Or.inl ⟨rfl, rfl⟩
  · exact Or.inl ⟨rfl, rfl⟩

theorem phaseStep_sameTrial (r0 : List TrialResult) (d : ℚ) (app : App) (i : IterInput)
    (h : SameTrial r0 d app) : SameTrial r0 d (phaseStep app i).app := by
  rcases h with ⟨hr, hd, hp⟩ | hlt
  · rcases hp with hp | hp
    · unfold phaseStep
      simp only [hp]
      split_ifs
      · exact Or.inr (by simp [hr])
      · exact Or.inl ⟨hr, hd, Or.inr rfl⟩
      · exact Or.inl ⟨hr, hd, Or.inl hp⟩
      · exact Or.inl ⟨hr, hd, Or.inl hp⟩
    · rw [phaseStep_response app i hp]
      split_ifs
      · exact Or.inr (by simp [hr])
      · exact Or.inl ⟨hr, hd, Or.inr hp⟩
  · refine Or.inr ?_
    rcases phaseStep_cases app i with ⟨e, -⟩ | ⟨r, e, -⟩
    · rw [e]
      exact hlt
    · rw [e, List.length_append]
      omega

theorem loopIteration_sameTrial (r0 : List TrialResult) (d : ℚ) (app : App) (i : IterInput)
    (h : SameTrial r0 d app) : SameTrial r0 d (loopIteration app i).app := by
  obtain ⟨f1, -, f3, -, -, f6, -, -⟩ := PumpMessages_frame app i.msgs
  have hp : SameTrial r0 d (PumpMessages app i.msgs) := by
    unfold SameTrial at h ⊢
    rw [f1, f3, f6]
    exact h
  unfold loopIteration
  dsimp only
  split_ifs
  · exact hp
  · exact hp
  · exact phaseStep_sameTrial r0 d _ i hp

theorem runLoop_sameTrial (r0 : List TrialResult) (d : ℚ) (app : App)
    (inputs : List IterInput) (h : SameTrial r0 d app) :
    SameTrial r0 d (runLoop app inputs).app := by
  induction inputs generalizing app with
  | nil => exact h
  | cons i rest ih =>
      unfold runLoop
      dsimp only
      split
      · exact loopIteration_sameTrial r0 d app i h
      · exact ih _ (loopIteration_sameTrial r0 d app i h)

/-! ## The signal flags are only ever set by the pump -/

theorem pumpOne_quit_mono (app : App) (m : PumpedMsg) (h : app.quitRequested = true) :
    (pumpOne app m).quitRequested = true := by
  unfold pumpOne
  dsimp only
  split_ifs
  · rfl
  · cases hm : m.msg with
    | keyboard isBreak vkey =>
        simp only [WindowProc, RecordRawInputPress]
        split_ifs <;> exact h
    | mouse f =>
        simp only [WindowProc, RecordRawInputPress]
        split_ifs <;> exact h
    | close => rfl
    | destroy => rfl
    | quit => exact h
    | other => exact h

theorem PumpMessages_quit_mono (app : App) (msgs : List PumpedMsg)
    (h : app.quitRequested = true) : (PumpMessages app msgs).quitRequested = true := by
  induction msgs generalizing app with
  | nil => exact h
  | cons m rest ih => exact ih (pumpOne app m) (pumpOne_quit_mono app m h)

/-! ## The averaging loop -/

theorem averageLoop_eq (results : List TrialResult) (acc : ℚ × Nat) :
    averageLoop results acc =
      (acc.1 + (validReactions results).sum, acc.2 + (validReactions results).length) := by
  induction results generalizing acc with
  | nil => simp [averageLoop, validReactions]
  | cons t rest ih =>
      unfold averageLoop
      split_ifs with h
      · rw [ih]
        simp [validReactions, List.filter_cons, h, add_assoc, add_comm 1]
      · have h2 : t.falseStart = true := by simpa using h
        rw [ih]
        simp [validReactions, List.filter_cons, h2]

theorem validReactions_congr {xs ys : List TrialResult}
    (h : List.Forall₂ sameUpToFalseStartReaction xs ys) :
    validReactions xs = validReactions ys := by
  induction h with
  | nil => rfl
  | @cons a b l1 l2 hab _ ih =>
      obtain ⟨h1, -, h3⟩ := hab
      unfold validReactions at ih ⊢
      cases hfs : a.falseStart with
      | true =>
          have hb : b.falseStart = true := by rw [← h1, hfs]
          simp [List.filter_cons, hfs, hb, ih]
      | false =>
          have hb : b.falseStart = false := by rw [← h1, hfs]
          simp [List.filter_cons, hfs, hb, ih, h3 hfs]

theorem validReactions_pos {results : List TrialResult}
    (h : ∃ t ∈ results, t.falseStart = false) : 0 < (validReactions results).length := by
  obtain ⟨t, ht, hf⟩ := h
  have : t.reactionMs ∈ validReactions results := by
    unfold validReactions
    exact List.mem_map.2 ⟨t, List.mem_filter.2 ⟨ht, by simp [hf]⟩, rfl⟩
  exact List.length_pos_of_mem this

/-! ## Preservation of `LatchInv` -/

/-- The `WaitingForStimulus` case of the switch. -/
theorem phaseStep_waiting (app : App) (i : IterInput)
    (hp : app.phase = Phase.WaitingForStimulus) :
    phaseStep app i =
      if app.hasInput = true ∧ app.inputWasFalseStart = true then
        { app := { app with
                    results := app.results ++ [⟨app.scheduledDelaySeconds, 0, true⟩]
                    trialIndex := wrapInt32 (app.trialIndex + 1)
                    phase := nextPhase (wrapInt32 (app.trialIndex + 1)) app.trialCount }
          effects := []
          exit := none }
      else if QpcDeltaToSeconds (wrapInt64 (i.now - app.trialStartQpc)) app.qpcFreq ≥
          app.scheduledDelaySeconds then
        { app := { app with
                    stimulusQpc := Int.tdiv (wrapInt64 (i.t0 + i.t1)) 2
                    phase := Phase.WaitingForResponse }
          effects := [Effect.present 1]
          exit := none }
      else if app.scheduledDelaySeconds -
          QpcDeltaToSeconds (wrapInt64 (i.now - app.trialStartQpc)) app.qpcFreq > 3 / 1000 then
        { app := app, effects := [Effect.sleep 1], exit := none }
      else
        { app := app, effects := [Effect.switchToThread], exit := none } := by
  simp only [phaseStep, hp]

theorem nextPhase_cases (a b : Int) :
    nextPhase a b = Phase.Finished ∨ nextPhase a b = Phase.BeginTrial := by
  unfold nextPhase
  split_ifs
  · exact Or.inl rfl
  · exact Or.inr rfl

theorem nextPhase_ne_waiting (a b : Int) :
    nextPhase a b ≠ Phase.WaitingForStimulus ∧ nextPhase a b ≠ Phase.WaitingForResponse := by
  rcases nextPhase_cases a b with h | h <;> rw [h] <;> exact ⟨by simp, by simp⟩

theorem ResetSessionState_latchInv (app : App) : LatchInv (ResetSessionState app) := by
  simp [LatchInv, ResetSessionState]

theorem RecordRawInputPress_latchInv (app : App) (qpc : Int) (h : LatchInv app) :
    LatchInv (RecordRawInputPress app qpc) := by
  obtain ⟨h1, h2⟩ := h
  unfold RecordRawInputPress
  split_ifs with ha hb
  · exact ⟨fun hp => by simp [ha.1] at hp, fun _ _ => rfl⟩
  · exact ⟨fun hp => ⟨(h1 hp).1, fun _ => rfl⟩, fun hp => by simp [hb.1] at hp⟩
  · exact ⟨h1, h2⟩

theorem pumpOne_latchInv (app : App) (m : PumpedMsg) (h : LatchInv app) :
    LatchInv (pumpOne app m) := by
  have hr := RecordRawInputPress_latchInv app m.qpc h
  have hw : LatchInv (WindowProc app m.msg m.qpc) := by
    cases hmsg : m.msg with
    | keyboard isBreak vkey =>
        simp only [WindowProc]
        split_ifs
        · exact h
        · exact h
        · exact hr
    | mouse f =>
        simp only [WindowProc]
        split_ifs
        · exact hr
        · exact h
    | close => exact h
    | destroy => exact h
    | quit => exact h
    | other => exact h
  unfold pumpOne
  dsimp only
  split_ifs
  · exact hw
  · exact hw

theorem PumpMessages_latchInv (app : App) (msgs : List PumpedMsg) (h : LatchInv app) :
    LatchInv (PumpMessages app msgs) := by
  induction msgs generalizing app with
  | nil => exact h
  | cons m rest ih => exact ih (pumpOne app m) (pumpOne_latchInv app m h)

theorem phaseStep_latchInv (app : App) (i : IterInput) (h : LatchInv app) :
    LatchInv (phaseStep app i).app := by
  obtain ⟨h1, h2⟩ := h
  cases hp : app.phase with
  | BeginTrial =>
      rw [phaseStep_begin app i hp]
      exact ⟨fun _ => ⟨rfl, fun hi => by simp at hi⟩, fun hq => by simp at hq⟩
  | WaitingForStimulus =>
      rw [phaseStep_waiting app i hp]
      split_ifs with hfs hel hrem
      · exact ⟨fun hq => absurd hq (nextPhase_ne_waiting _ _).1,
          fun hq => absurd hq (nextPhase_ne_waiting _ _).2⟩
      · refine ⟨fun hq => by simp at hq, fun _ hi => ?_⟩
        exact absurd ⟨hi, (h1 hp).2 hi⟩ hfs
      · exact ⟨h1, h2⟩
      · exact ⟨h1, h2⟩
  | WaitingForResponse =>
      rw [phaseStep_response app i hp]
      split_ifs
      · exact ⟨fun hq => absurd hq (nextPhase_ne_waiting _ _).1,
          fun hq => absurd hq (nextPhase_ne_waiting _ _).2⟩
      · exact ⟨h1, h2⟩
  | Finished =>
      have : phaseStep app i =
          { app := app, effects := [], exit := some SessionOutcome.Completed } := by
        simp only [phaseStep, hp]
      rw [this]
      exact ⟨h1, h2⟩

theorem loopIteration_latchInv (app : App) (i : IterInput) (h : LatchInv app) :
    LatchInv (loopIteration app i).app := by
  have hp := PumpMessages_latchInv app i.msgs h
  unfold loopIteration
  dsimp only
  split_ifs
  · exact hp
  · exact hp
  · exact phaseStep_latchInv _ i hp

theorem runLoop_latchInv (app : App) (inputs : List IterInput) (h : LatchInv app) :
    LatchInv (runLoop app inputs).app := by
  induction inputs generalizing app with
  | nil => exact h
  | cons i rest ih =>
      unfold runLoop
      dsimp only
      split
      · exact loopIteration_latchInv app i h
      · exact ih _ (loopIteration_latchInv app i h)

theorem RunTestSession_latchInv (app : App) (inputs : List IterInput) :
    LatchInv (RunTestSession app inputs).app :=
  runLoop_latchInv _ inputs (ResetSessionState_latchInv app)

/-- The iteration runs the switch on the pumped state when neither flag is set. -/
theorem loopIteration_of_clear (app : App) (i : IterInput)
    (hq : (PumpMessages app i.msgs).quitRequested = false)
    (he : (PumpMessages app i.msgs).escapePressed = false) :
    loopIteration app i = phaseStep (PumpMessages app i.msgs) i := by
  unfold loopIteration
  simp [hq, he]

/-! ## Shape of the exported text -/

theorem csvRows_cons (fmt : ℚ → String) (i : Nat) (t : TrialResult)
    (rest : List TrialResult) :
    csvRows fmt i (t :: rest) = csvRow fmt i t ++ csvRows fmt (i + 1) rest := rfl

theorem csvRows_append (fmt : ℚ → String) (i : Nat) (xs ys : List TrialResult) :
    csvRows fmt i (xs ++ ys) = csvRows fmt i xs ++ csvRows fmt (i + xs.length) ys := by
  induction xs generalizing i with
  | nil => simp [csvRows]
  | cons x rest ih =>
      rw [List.cons_append, csvRows_cons, csvRows_cons, ih, String.append_assoc,
        List.length_cons]
      congr 3
      omega

theorem jsonRows_cons (fmt : ℚ → String) (n i : Nat) (t : TrialResult)
    (rest : List TrialResult) :
    jsonRows fmt n i (t :: rest) = jsonRow fmt n i t ++ jsonRows fmt n (i + 1) rest := rfl

theorem jsonRows_append (fmt : ℚ → String) (n i : Nat) (xs ys : List TrialResult) :
    jsonRows fmt n i (xs ++ ys) =
      jsonRows fmt n i xs ++ jsonRows fmt n (i + xs.length) ys := by
  induction xs generalizing i with
  | nil => simp [jsonRows]
  | cons x rest ih =>
      rw [List.cons_append, jsonRows_cons, jsonRows_cons, ih, String.append_assoc,
        List.length_cons]
      congr 3
      omega

theorem countLoop_valid (results : List TrialResult) (acc : Nat × Nat) :
    (countLoop results acc).1 = acc.1 + (validReactions results).length := by
  induction results generalizing acc with
  | nil => simp [countLoop, validReactions]
  | cons t rest ih =>
      unfold countLoop
      split_ifs with h
      · rw [ih]
        simp [validReactions, List.filter_cons, h]
      · have h2 : t.falseStart = false := by simpa using h
        rw [ih]
        simp [validReactions, List.filter_cons, h2]
        omega

theorem validReactions_length_eq_zero (results : List TrialResult) :
    (validReactions results).length = 0 ↔ ∀ t ∈ results, t.falseStart = true := by
  constructor
  · intro h t ht
    by_contra hne
    have hf : t.falseStart = false := by simpa using hne
    have := validReactions_pos ⟨t, ht, hf⟩
    omega
  · intro h
    have : validReactions results = [] := by
      unfold validReactions
      rw [List.map_eq_nil_iff, List.filter_eq_nil_iff]
      intro t ht
      simp [h t ht]
    rw [this]
    rfl

/-! ## Configuration parsing -/

theorem TryParseIntW_range (rt : CRuntime) (value : String) (n : Int)
    (h : TryParseIntW rt value = some n) : 1 ≤ n ∧ n ≤ 1000000 := by
  unfold TryParseIntW at h
  split_ifs at h
  split at h
  · simp at h
  · split_ifs at h with hr
    have hn : _ = n := Option.some.inj h
    subst hn
    omega

theorem TryParseIntNarrow_range (rt : CRuntime) (value : String) (n : Int)
    (h : TryParseIntNarrow rt value = some n) : 1 ≤ n ∧ n ≤ 1000000 := by
  unfold TryParseIntNarrow at h
  split_ifs at h
  split at h
  · simp at h
  · split_ifs at h with hr
    have hn : _ = n := Option.some.inj h
    subst hn
    omega

theorem mem_skip_two {a b x y : String} {l : List String} (h : a ∈ l ∨ b ∈ l) :
    a ∈ x :: y :: l ∨ b ∈ x :: y :: l := by
  rcases h with h | h
  · exact Or.inl (List.mem_cons_of_mem _ (List.mem_cons_of_mem _ h))
  · exact Or.inr (List.mem_cons_of_mem _ (List.mem_cons_of_mem _ h))

theorem mem_skip_one {a b x : String} {l : List String} (h : a ∈ l ∨ b ∈ l) :
    a ∈ x :: l ∨ b ∈ x :: l := by
  rcases h with h | h
  · exact Or.inl (List.mem_cons_of_mem _ h)
  · exact Or.inr (List.mem_cons_of_mem _ h)

/-- The argument loop keeps `trialCount ≥ 1`, and reports a help request only
when `--help` or `-h` is among the arguments. -/
theorem parseArgsLoop_spec (rt : CRuntime) (n : Nat) :
    ∀ (args : List String) (app : App), args.length ≤ n →
      (1 ≤ app.trialCount → 1 ≤ (parseArgsLoop rt app args).app.trialCount) ∧
        ((parseArgsLoop rt app args).helpRequested = true →
          "--help" ∈ args ∨ "-h" ∈ args) := by
  induction n with
  | zero =>
      intro args app h
      cases args with
      | nil => simp [parseArgsLoop]
      | cons a l => simp at h
  | succ n ih =>
      intro args app h
      cases args with
      | nil => simp [parseArgsLoop]
      | cons arg rest =>
          have hrest : rest.length ≤ n := by
            simp only [List.length_cons] at h
            omega
          unfold parseArgsLoop
          split_ifs with h1 h2 h3 h4 h5 h6 h7
          · cases rest with
            | nil => simp
            | cons v rest2 =>
                have hr2 : rest2.length ≤ n := by
                  simp only [List.length_cons] at hrest
                  omega
                dsimp only
                cases hv : TryParseDoubleW rt v with
                | none => simp
                | some x =>
                    have hi := ih rest2 { app with minDelaySeconds := x } hr2
                    exact ⟨hi.1, fun hh => mem_skip_two (hi.2 hh)⟩
          · cases rest with
            | nil => simp
            | cons v rest2 =>
                have hr2 : rest2.length ≤ n := by
                  simp only [List.length_cons] at hrest
                  omega
                dsimp only
                cases hv : TryParseDoubleW rt v with
                | none => simp
                | some x =>
                    have hi := ih rest2 { app with maxDelaySeconds := x } hr2
                    exact ⟨hi.1, fun hh => mem_skip_two (hi.2 hh)⟩
          · cases rest with
            | nil => simp
            | cons v rest2 =>
                have hr2 : rest2.length ≤ n := by
                  simp only [List.length_cons] at hrest
                  omega
                dsimp only
                cases hv : TryParseIntW rt v with
                | none => simp
                | some k =>
                    have hi := ih rest2 { app with trialCount := k } hr2
                    exact ⟨fun _ => hi.1 (TryParseIntW_range rt v k hv).1,
                      fun hh => mem_skip_two (hi.2 hh)⟩
          · have hi := ih rest { app with runOnceNoPrompt := true } hrest
            exact ⟨hi.1, fun hh => mem_skip_one (hi.2 hh)⟩
          · cases rest with
            | nil => simp
            | cons v rest2 =>
                have hr2 : rest2.length ≤ n := by
                  simp only [List.length_cons] at hrest
                  omega
                dsimp only
                split_ifs
                · simp
                · have hi := ih rest2 { app with jsonOutputPath := WideToUtf8 v } hr2
                  exact ⟨hi.1, fun hh => mem_skip_two (hi.2 hh)⟩
          · cases rest with
            | nil => simp
            | cons v rest2 =>
                have hr2 : rest2.length ≤ n := by
                  simp only [List.length_cons] at hrest
                  omega
                dsimp only
                split_ifs
                · simp
                · have hi := ih rest2 { app with csvOutputPath := WideToUtf8 v } hr2
                  exact ⟨hi.1, fun hh => mem_skip_two (hi.2 hh)⟩
          · refine ⟨fun hh => hh, fun _ => ?_⟩
            rcases h7 with h7 | h7
            · exact Or.inl (by rw [h7]; exact List.mem_cons_self _ _)
            · exact Or.inr (by rw [h7]; exact List.mem_cons_self _ _)
          · simp

theorem CDouble.lt_of_not_le {a b : CDouble} (ha : a ≠ CDouble.nan) (hb : b ≠ CDouble.nan)
    (h : ¬ a ≤ b) : b < a := by
  cases a <;> cases b <;> simp_all [LE.le, LT.lt, CDouble.le, CDouble.lt]

theorem CDouble.ne_nan_of_lt {a b : CDouble} (h : a < b) :
    a ≠ CDouble.nan ∧ b ≠ CDouble.nan := by
  cases a <;> cases b <;> simp_all [LT.lt, CDouble.lt]

theorem CDouble.zero_ne_nan : (0 : CDouble) ≠ CDouble.nan := by
  decide

/-- Apart from NaN the range test of `ParseArgs` does its work: a result `Ok`
whose two delay bounds are not NaN is a valid configuration. -/
theorem ParseArgs_ok_valid (rt : CRuntime) (app : App) (argv : Option (List String))
    (hcount : 1 ≤ app.trialCount)
    (hok : (ParseArgs rt app argv).result = ArgParseResult.Ok)
    (hmin : (ParseArgs rt app argv).app.minDelaySeconds ≠ CDouble.nan)
    (hmax : (ParseArgs rt app argv).app.maxDelaySeconds ≠ CDouble.nan) :
    ValidConfig (ParseArgs rt app argv).app := by
  unfold ParseArgs at hok hmin hmax ⊢
  cases argv with
  | none => simp at hok
  | some args =>
      have hspec := (parseArgsLoop_spec rt _ (args.drop 1) app (le_refl _)).1 hcount
      dsimp only at hok hmin hmax ⊢
      split_ifs at hok hmin hmax ⊢ with hh hbad
      push_neg at hbad
      exact ⟨hspec, CDouble.lt_of_not_le hmin CDouble.zero_ne_nan hbad.2.1,
        CDouble.lt_of_not_le hmax hmin hbad.2.2.2⟩

/-- Apart from NaN the tests of `ShowSettingsPage` do their work: on a valid
configuration a pass whose line is not read as NaN keeps it valid. -/
theorem settingsEdit_valid (rt : CRuntime) (app : App) (choice : Int) (line : String)
    (h : ValidConfig app) (hnan : TryParseDoubleNarrow rt line ≠ some CDouble.nan) :
    ValidConfig (settingsEdit rt app choice line) := by
  obtain ⟨h1, h2, h3⟩ := h
  have hmn := (CDouble.ne_nan_of_lt h3).1
  have hmx := (CDouble.ne_nan_of_lt h3).2
  unfold settingsEdit
  split_ifs with c1 c2 c3
  · split
    · exact ⟨h1, h2, h3⟩
    · rename_i value hv
      have hval : value ≠ CDouble.nan := fun hc => hnan (by rw [hv, hc])
      split_ifs with hr
      · exact ⟨h1, h2, h3⟩
      · push_neg at hr
        exact ⟨h1, CDouble.lt_of_not_le hval CDouble.zero_ne_nan hr.1,
          CDouble.lt_of_not_le hmx hval hr.2⟩
  · split
    · exact ⟨h1, h2, h3⟩
    · rename_i value hv
      have hval : value ≠ CDouble.nan := fun hc => hnan (by rw [hv, hc])
      split_ifs with hr
      · exact ⟨h1, h2, h3⟩
      · exact ⟨h1, h2, CDouble.lt_of_not_le hval hmn hr⟩
  · split
    · exact ⟨h1, h2, h3⟩
    · rename_i value hv
      exact ⟨(TryParseIntNarrow_range rt line value hv).1, h2, h3⟩
  · exact ⟨h1, h2, h3⟩

/-- A pass of `ShowSettingsPage` either leaves the configuration unchanged or
stores exactly the parsed value in the chosen field (no clamping). -/
theorem settingsEdit_cases (rt : CRuntime) (cfg : App) (choice : Int) (line : String) :
    settingsEdit rt cfg choice line = cfg ∨
      (∃ v, choice = 1 ∧ TryParseDoubleNarrow rt line = some v ∧
        settingsEdit rt cfg choice line = { cfg with minDelaySeconds := v }) ∨
      (∃ v, choice = 2 ∧ TryParseDoubleNarrow rt line = some v ∧
        settingsEdit rt cfg choice line = { cfg with maxDelaySeconds := v }) ∨
      (∃ n, choice = 3 ∧ TryParseIntNarrow rt line = some n ∧
        settingsEdit rt cfg choice line = { cfg with trialCount := n }) := by
  unfold settingsEdit
  split_ifs with c1 c2 c3
  · cases hv : TryParseDoubleNarrow rt line with
    | none => exact Or.inl rfl
    | some v =>
        dsimp only
        split_ifs
        · exact Or.inl rfl
        · exact Or.inr (Or.inl ⟨v, c1, rfl, rfl⟩)
  · cases hv : TryParseDoubleNarrow rt line with
    | none => exact Or.inl rfl
    | some v =>
        dsimp only
        split_ifs
        · exact Or.inl rfl
        · exact Or.inr (Or.inr (Or.inl ⟨v, c2, rfl, rfl⟩))
  · cases hv : TryParseIntNarrow rt line with
    | none => exact Or.inl rfl
    | some v => exact Or.inr (Or.inr (Or.inr ⟨v, c3, rfl, rfl⟩))
  · exact Or.inl rfl

/-! ## Session-level properties -/

/-- C1. For a session started by `ResetSessionState` whose `trialCount` is a
C++ `int` with `trialCount ≥ 1`, whatever messages, delay samples and clock
readings the iterations receive, the state after any number of loop iterations
holds at most `trialCount` results. -/
theorem results_le_trialCount (app : App) (inputs : List IterInput)
    (h1 : 1 ≤ app.trialCount) (h2 : app.trialCount < 2 ^ 31) :
    ((RunTestSession app inputs).app.results.length : Int) ≤ app.trialCount := by
  obtain ⟨e, a, b⟩ := RunTestSession_inv app inputs h2
  have ht := RunTestSession_trialCount app inputs
  by_cases hp : (RunTestSession app inputs).app.phase = Phase.Finished
  · have := b hp
    omega
  · have := a hp
    omega

theorem results_le_trialCount_witness :
    1 ≤ oneTrialApp.trialCount ∧ oneTrialApp.trialCount < 2 ^ 31 ∧
      ((RunTestSession oneTrialApp validRun).app.results.length : Int) ≤
        oneTrialApp.trialCount :=
  ⟨by decide, by decide, results_le_trialCount oneTrialApp validRun (by decide) (by decide)⟩

/-- C2, as stated, fails: with one trial, a false start resolves the trial, and
an Esc taken off the queue in the following iteration (phase already
`Finished`) makes the session return `Aborted` although all results are
recorded. -/
theorem aborted_with_full_results :
    1 ≤ oneTrialApp.trialCount ∧
      (RunTestSession oneTrialApp lateEscapeRun).outcome = some SessionOutcome.Aborted ∧
      ((RunTestSession oneTrialApp lateEscapeRun).app.results.length : Int) =
        oneTrialApp.trialCount := by
  refine ⟨by decide, ?_, ?_⟩ <;> rfl

/-- C2, amended. For a terminated session with `trialCount ≥ 1`: the outcome
`Completed` implies that exactly `trialCount` results are recorded; the number
of results equals `trialCount` exactly when the phase at termination is
`Finished`; so a session that returns `Aborted` or `QuitRequested` has fewer
than `trialCount` results exactly when it ended before the last trial was
resolved. -/
theorem outcome_vs_result_count (app : App) (inputs : List IterInput) (o : SessionOutcome)
    (h1 : 1 ≤ app.trialCount) (h2 : app.trialCount < 2 ^ 31)
    (hterm : (RunTestSession app inputs).outcome = some o) :
    (o = SessionOutcome.Completed →
        ((RunTestSession app inputs).app.results.length : Int) = app.trialCount) ∧
      (((RunTestSession app inputs).app.results.length : Int) = app.trialCount ↔
        (RunTestSession app inputs).app.phase = Phase.Finished) ∧
      (o ≠ SessionOutcome.Completed →
        (((RunTestSession app inputs).app.results.length : Int) < app.trialCount ↔
          (RunTestSession app inputs).app.phase ≠ Phase.Finished)) := by
  obtain ⟨e, a, b⟩ := RunTestSession_inv app inputs h2
  have ht := RunTestSession_trialCount app inputs
  have hiff : ((RunTestSession app inputs).app.results.length : Int) = app.trialCount ↔
      (RunTestSession app inputs).app.phase = Phase.Finished := by
    constructor
    · intro hl
      by_contra hp
      have := a hp
      omega
    · intro hp
      have := b hp
      omega
  refine ⟨fun ho => ?_, hiff, fun _ => ?_⟩
  · subst ho
    exact hiff.2 (runLoop_completed _ inputs hterm)
  · constructor
    · intro hl hp
      have := hiff.2 hp
      omega
    · intro hp
      have := a hp
      omega

theorem outcome_vs_result_count_witness :
    (SessionOutcome.Completed = SessionOutcome.Completed →
        ((RunTestSession oneTrialApp validRun).app.results.length : Int) =
          oneTrialApp.trialCount) ∧
      (((RunTestSession oneTrialApp validRun).app.results.length : Int) =
          oneTrialApp.trialCount ↔
        (RunTestSession oneTrialApp validRun).app.phase = Phase.Finished) ∧
      (SessionOutcome.Completed ≠ SessionOutcome.Completed →
        (((RunTestSession oneTrialApp validRun).app.results.length : Int) <
            oneTrialApp.trialCount ↔
          (RunTestSession oneTrialApp validRun).app.phase ≠ Phase.Finished)) :=
  outcome_vs_result_count oneTrialApp validRun SessionOutcome.Completed (by decide) (by decide)
    (by decide!)

/-- C3. In a session run under a monotonic clock (readings non-negative,
non-decreasing and below `2 ^ 62`) with a positive counter frequency, every
iteration that resolves a trial in `WaitingForResponse` appends one result
with `falseStart = false` whose `reactionMs` is
`(inputQpc - stimulusQpc) * 1000 / freq`; the latched input timestamp is not
earlier than the stimulus timestamp and the reaction time is `≥ 0`. -/
theorem valid_trial_reaction (app : App) (inputs : List IterInput) (i : IterInput)
    (hfreq : 0 < app.qpcFreq) (hclk : MonotonicClock (inputs ++ [i]))
    (hph : (RunTestSession app inputs).app.phase = Phase.WaitingForResponse)
    (hres : (loopIteration (RunTestSession app inputs).app i).app.results ≠
      (RunTestSession app inputs).app.results) :
    (loopIteration (RunTestSession app inputs).app i).app.results =
        (RunTestSession app inputs).app.results ++
          [⟨(RunTestSession app inputs).app.scheduledDelaySeconds,
            (((PumpMessages (RunTestSession app inputs).app i.msgs).inputQpc -
                (PumpMessages (RunTestSession app inputs).app i.msgs).stimulusQpc : Int) : ℚ)
              * 1000 / (app.qpcFreq : ℚ),
            false⟩] ∧
      (PumpMessages (RunTestSession app inputs).app i.msgs).stimulusQpc ≤
        (PumpMessages (RunTestSession app inputs).app i.msgs).inputQpc ∧
      (0 : ℚ) ≤
        (((PumpMessages (RunTestSession app inputs).app i.msgs).inputQpc -
            (PumpMessages (RunTestSession app inputs).app i.msgs).stimulusQpc : Int) : ℚ)
          * 1000 / (app.qpcFreq : ℚ) := by
  have hq : (RunTestSession app inputs).app.qpcFreq = app.qpcFreq := by
    unfold RunTestSession
    rw [runLoop_qpcFreq]
    rfl
  have hclk2 : readingsFrom 0 (allReadings inputs ++ i.readings) := by
    have := hclk
    unfold MonotonicClock at this
    rw [allReadings_append] at this
    simpa [allReadings] using this
  obtain ⟨c, hc, hrc⟩ :=
    runLoop_timeInv inputs (ResetSessionState app) 0 i.readings
      (ResetSessionState_timeInv app) hclk2
  change TimeInv c (RunTestSession app inputs).app at hc
  generalize (RunTestSession app inputs).app = s at hc hph hres hq ⊢
  have hr2 : readingsFrom c (i.msgs.map PumpedMsg.qpc ++ [i.now, i.t0, i.t1]) := hrc
  obtain ⟨d, hd, -⟩ := PumpMessages_timeInv i.msgs s c _ hc hr2
  obtain ⟨f1, -, f3, -, f5, f6, -, -⟩ := PumpMessages_frame s i.msgs
  unfold loopIteration at hres ⊢
  dsimp only at hres ⊢
  generalize PumpMessages s i.msgs = p at hd f1 f3 f5 f6 hres ⊢
  have hpp : p.phase = Phase.WaitingForResponse := by rw [f3, hph]
  split_ifs at hres ⊢
  · exact absurd f1 hres
  · exact absurd f1 hres
  · rw [phaseStep_response p i hpp] at hres ⊢
    split_ifs at hres ⊢ with hv
    · obtain ⟨t1, -, t3, -, t5⟩ := hd
      obtain ⟨-, u2, u3⟩ := t5 hpp hv.1
      have hw : wrapInt64 (p.inputQpc - p.stimulusQpc) = p.inputQpc - p.stimulusQpc :=
        wrapInt64_of_range (by omega) (by omega)
      have hnum : (0 : ℚ) ≤ ((p.inputQpc - p.stimulusQpc : Int) : ℚ) := by
        exact_mod_cast sub_nonneg.2 u2
      have hden : (0 : ℚ) < (app.qpcFreq : ℚ) := by exact_mod_cast hfreq
      refine ⟨?_, u2, div_nonneg (mul_nonneg hnum (by norm_num)) hden.le⟩
      dsimp only
      rw [hw, f1, f6, f5, hq]
      rfl
    · exact absurd f1 hres

theorem valid_trial_reaction_witness :
    0 < oneTrialApp.qpcFreq ∧
      MonotonicClock ([quietIter 10, quietIter 2510] ++ [pressIter 2660]) ∧
      (loopIteration (RunTestSession oneTrialApp [quietIter 10, quietIter 2510]).app
          (pressIter 2660)).app.results =
        (RunTestSession oneTrialApp [quietIter 10, quietIter 2510]).app.results ++
          [⟨(RunTestSession oneTrialApp [quietIter 10, quietIter 2510]).app.scheduledDelaySeconds,
            (((PumpMessages (RunTestSession oneTrialApp [quietIter 10, quietIter 2510]).app
                  (pressIter 2660).msgs).inputQpc -
                (PumpMessages (RunTestSession oneTrialApp [quietIter 10, quietIter 2510]).app
                  (pressIter 2660).msgs).stimulusQpc : Int) : ℚ)
              * 1000 / (oneTrialApp.qpcFreq : ℚ),
            false⟩] :=
  ⟨by decide, by decide!,
    (valid_trial_reaction oneTrialApp [quietIter 10, quietIter 2510] (pressIter 2660)
      (by decide) (by decide!) (by decide!) (by decide!)).1⟩

/-- The one-trial run answered 150 ticks after the stimulus measures 150 ms. -/
theorem oneTrial_run_measures_150ms :
    (loopIteration (RunTestSession oneTrialApp [quietIter 10, quietIter 2510]).app
        (pressIter 2660)).app.results = [⟨5 / 2, 150, false⟩] := by
  decide!

/-- C4. Take a trial whose `BeginTrial` step drew the delay `i0.delay`, and a
later state of that same trial (no result appended since) in phase
`WaitingForStimulus` with no input latched.  If `RecordRawInputPress` records
a press there, then, whatever else the pump delivers afterwards, the next
execution of the phase switch appends exactly one result, with
`falseStart = true` and `delaySeconds` equal to the delay drawn at
`BeginTrial`. -/
theorem false_start_recorded (app0 : App) (i0 : IterInput) (waits : List IterInput)
    (qpc : Int) (more : List PumpedMsg) (i : IterInput)
    (hb : app0.phase = Phase.BeginTrial)
    (hgo : (loopIteration app0 i0).exit = none)
    (hsame : (runLoop (loopIteration app0 i0).app waits).app.results.length =
      app0.results.length)
    (hwfs : (runLoop (loopIteration app0 i0).app waits).app.phase = Phase.WaitingForStimulus)
    (hni : (runLoop (loopIteration app0 i0).app waits).app.hasInput = false) :
    (phaseStep
        (PumpMessages
          (RecordRawInputPress (runLoop (loopIteration app0 i0).app waits).app qpc) more)
        i).app.results =
      (runLoop (loopIteration app0 i0).app waits).app.results ++ [⟨i0.delay, 0, true⟩] := by
  have h1 : SameTrial app0.results i0.delay (loopIteration app0 i0).app := by
    obtain ⟨f1, -, f3, -⟩ := PumpMessages_frame app0 i0.msgs
    unfold loopIteration at hgo ⊢
    dsimp only at hgo ⊢
    split_ifs at hgo ⊢
    rw [phaseStep_begin _ i0 (by rw [f3, hb])]
    exact Or.inl ⟨f1, rfl, Or.inl rfl⟩
  have h2 := runLoop_sameTrial _ _ _ waits h1
  generalize (runLoop (loopIteration app0 i0).app waits).app = s at h2 hsame hwfs hni ⊢
  rcases h2 with ⟨-, hd, -⟩ | hlt
  · have hrec : RecordRawInputPress s qpc =
        { s with inputQpc := qpc, hasInput := true, inputWasFalseStart := true } := by
      unfold RecordRawInputPress
      simp [hwfs, hni]
    obtain ⟨f1, -, f3, -, -, f6, -, -⟩ := PumpMessages_frame (RecordRawInputPress s qpc) more
    obtain ⟨l1, l2, -⟩ := PumpMessages_latched (RecordRawInputPress s qpc) more
      (by rw [hrec])
    rw [phaseStep_falseStart _ i (by rw [f3, hrec]; exact hwfs) l1 (by rw [l2, hrec])]
    dsimp only
    rw [f1, f6, hrec]
    dsimp only
    rw [hd]
  · omega

theorem false_start_recorded_witness :
    (phaseStep
        (PumpMessages
          (RecordRawInputPress
            (runLoop (loopIteration (ResetSessionState oneTrialApp) (quietIter 10)).app
              [quietIter 20]).app 30) [])
        (quietIter 30)).app.results =
      (runLoop (loopIteration (ResetSessionState oneTrialApp) (quietIter 10)).app
        [quietIter 20]).app.results ++ [⟨(quietIter 10).delay, 0, true⟩] :=
  false_start_recorded (ResetSessionState oneTrialApp) (quietIter 10) [quietIter 20] 30 []
    (quietIter 30) (by decide) (by decide) (by decide!) (by decide!) (by decide!)

/-- C5. `RecordRawInputPress` latches at most one press per trial: on a state
with `hasInput = true` it is the identity; any further calls after a first
call give the state of the first call alone; and a call changes the state only
when the phase is `WaitingForStimulus` or `WaitingForResponse` (and nothing is
latched yet). -/
theorem latch_first_press_only (app : App) (q : Int) (qs : List Int) :
    (app.hasInput = true → RecordRawInputPress app q = app) ∧
      qs.foldl RecordRawInputPress (RecordRawInputPress app q) = RecordRawInputPress app q ∧
      (RecordRawInputPress app q ≠ app →
        (app.phase = Phase.WaitingForStimulus ∨ app.phase = Phase.WaitingForResponse) ∧
          app.hasInput = false) := by
  refine ⟨RecordRawInputPress_latched app q, ?_, ?_⟩
  · have hfix : ∀ (a : App), (∀ r, RecordRawInputPress a r = a) →
        qs.foldl RecordRawInputPress a = a := by
      induction qs with
      | nil => exact fun _ _ => rfl
      | cons r rest ih =>
          intro a ha
          rw [List.foldl_cons, ha r]
          exact ih a ha
    apply hfix
    intro r
    unfold RecordRawInputPress
    split_ifs <;> simp_all
  · intro hne
    unfold RecordRawInputPress at hne
    split_ifs at hne with ha hb
    · exact ⟨Or.inr ha.1, ha.2⟩
    · exact ⟨Or.inl hb.1, hb.2⟩
    · exact absurd rfl hne

theorem latch_first_press_only_witness :
    [40, 50, 60].foldl RecordRawInputPress
        (RecordRawInputPress
          (loopIteration (ResetSessionState oneTrialApp) (quietIter 10)).app 30) =
      RecordRawInputPress (loopIteration (ResetSessionState oneTrialApp) (quietIter 10)).app 30 :=
  (latch_first_press_only (loopIteration (ResetSessionState oneTrialApp) (quietIter 10)).app
    30 [40, 50, 60]).2.1

/-- C6. Whatever the phase and the rest of the state, if the loop finds the
cancel flag set and the quit flag clear when it tests them (after the pump at
the top of the iteration), the loop is left in that iteration with outcome
`Aborted`, no later input is consumed, and `results` is what it was before the
iteration.  With `trialCount = 1` and Esc arriving in `WaitingForStimulus` the
session returns `Aborted` with no results. -/
theorem cancel_aborts (app : App) (i : IterInput) (rest : List IterInput)
    (hesc : (PumpMessages app i.msgs).escapePressed = true)
    (hquit : (PumpMessages app i.msgs).quitRequested = false) :
    ((loopIteration app i).exit = some SessionOutcome.Aborted ∧
        (loopIteration app i).app.results = app.results) ∧
      ((runLoop app (i :: rest)).outcome = some SessionOutcome.Aborted ∧
        (runLoop app (i :: rest)).app.results = app.results) ∧
      ((RunTestSession oneTrialApp [quietIter 10, escapeIter 20]).outcome =
          some SessionOutcome.Aborted ∧
        (RunTestSession oneTrialApp [quietIter 10, escapeIter 20]).app.results = []) := by
  have hf := (PumpMessages_frame app i.msgs).1
  have hit : (loopIteration app i).exit = some SessionOutcome.Aborted ∧
      (loopIteration app i).app.results = app.results := by
    unfold loopIteration
    simp [hesc, hquit, hf]
  refine ⟨hit, ?_, by decide!⟩
  unfold runLoop
  simp [hit.1, hit.2]

theorem cancel_aborts_witness :
    (loopIteration (loopIteration (ResetSessionState oneTrialApp) (quietIter 10)).app
        (escapeIter 20)).exit = some SessionOutcome.Aborted ∧
      (loopIteration (loopIteration (ResetSessionState oneTrialApp) (quietIter 10)).app
        (escapeIter 20)).app.results =
        (loopIteration (ResetSessionState oneTrialApp) (quietIter 10)).app.results :=
  (cancel_aborts (loopIteration (ResetSessionState oneTrialApp) (quietIter 10)).app
    (escapeIter 20) [] (by decide) (by decide)).1

/-- C7. Whatever the phase, the number of recorded trials and the cancel flag,
if the quit flag is set when the iteration starts, or is set by the pump at its
top, the loop is left in that iteration with outcome `QuitRequested`, no later
input is consumed, and `results` is unchanged by the iteration. -/
theorem quit_ends_session (app : App) (i : IterInput) (rest : List IterInput)
    (hquit : app.quitRequested = true ∨ (PumpMessages app i.msgs).quitRequested = true) :
    ((loopIteration app i).exit = some SessionOutcome.QuitRequested ∧
        (loopIteration app i).app.results = app.results) ∧
      ((runLoop app (i :: rest)).outcome = some SessionOutcome.QuitRequested ∧
        (runLoop app (i :: rest)).app.results = app.results) := by
  have hq : (PumpMessages app i.msgs).quitRequested = true := by
    rcases hquit with h | h
    · exact PumpMessages_quit_mono app i.msgs h
    · exact h
  have hf := (PumpMessages_frame app i.msgs).1
  have hit : (loopIteration app i).exit = some SessionOutcome.QuitRequested ∧
      (loopIteration app i).app.results = app.results := by
    unfold loopIteration
    simp [hq, hf]
  refine ⟨hit, ?_⟩
  unfold runLoop
  simp [hit.1, hit.2]

theorem quit_ends_session_witness :
    (runLoop (RunTestSession oneTrialApp [quietIter 10, quietIter 2510]).app
        [closeIter 2600, pressIter 2700]).outcome = some SessionOutcome.QuitRequested ∧
      (runLoop (RunTestSession oneTrialApp [quietIter 10, quietIter 2510]).app
        [closeIter 2600, pressIter 2700]).app.results =
        (RunTestSession oneTrialApp [quietIter 10, quietIter 2510]).app.results :=
  (quit_ends_session (RunTestSession oneTrialApp [quietIter 10, quietIter 2510]).app
    (closeIter 2600) [pressIter 2700] (Or.inr (by decide!))).2

/-- C8. For a result sequence with at least one entry that is not a false
start, `ComputeAverageReactionMs` is the sum of `reactionMs` over the entries
with `falseStart = false` divided by their number; a sequence that differs
only in the `reactionMs` of false starts has the same average; and for
`[{2.5,150,false},{2.5,200,false},{2.5,x,true}]` the loop counts 2 valid
trials and the average is 175, whatever `x` is. -/
theorem average_is_mean_of_valid (results results2 : List TrialResult) (x : ℚ)
    (hvalid : ∃ t ∈ results, t.falseStart = false)
    (hsame : List.Forall₂ sameUpToFalseStartReaction results results2) :
    ComputeAverageReactionMs results =
        (validReactions results).sum / ((validReactions results).length : ℚ) ∧
      ComputeAverageReactionMs results2 = ComputeAverageReactionMs results ∧
      (averageLoop [⟨5 / 2, 150, false⟩, ⟨5 / 2, 200, false⟩, ⟨5 / 2, x, true⟩] (0, 0)).2 = 2 ∧
      ComputeAverageReactionMs [⟨5 / 2, 150, false⟩, ⟨5 / 2, 200, false⟩, ⟨5 / 2, x, true⟩] =
        175 := by
  have hpos := validReactions_pos hvalid
  have hmean : ∀ rs : List TrialResult, 0 < (validReactions rs).length →
      ComputeAverageReactionMs rs =
        (validReactions rs).sum / ((validReactions rs).length : ℚ) := by
    intro rs hrs
    unfold ComputeAverageReactionMs
    rw [averageLoop_eq]
    dsimp only
    rw [if_neg (by omega)]
    simp
  refine ⟨hmean results hpos, ?_, ?_, ?_⟩
  · have hc := validReactions_congr hsame
    rw [hmean results hpos, hmean results2 (by rw [← hc]; exact hpos), hc]
  · simp [averageLoop]
  · simp [ComputeAverageReactionMs, averageLoop]
    norm_num

theorem average_is_mean_of_valid_witness :
    ComputeAverageReactionMs [⟨5 / 2, 150, false⟩, ⟨5 / 2, 200, false⟩, ⟨5 / 2, 0, true⟩] =
        (validReactions [⟨5 / 2, 150, false⟩, ⟨5 / 2, 200, false⟩, ⟨5 / 2, 0, true⟩]).sum /
          ((validReactions
            [⟨5 / 2, 150, false⟩, ⟨5 / 2, 200, false⟩, ⟨5 / 2, 0, true⟩]).length : ℚ) ∧
      ComputeAverageReactionMs [⟨5 / 2, 150, false⟩, ⟨5 / 2, 200, false⟩, ⟨5 / 2, 999, true⟩] =
        ComputeAverageReactionMs [⟨5 / 2, 150, false⟩, ⟨5 / 2, 200, false⟩, ⟨5 / 2, 0, true⟩] :=
  have h := average_is_mean_of_valid
    [⟨5 / 2, 150, false⟩, ⟨5 / 2, 200, false⟩, ⟨5 / 2, 0, true⟩]
    [⟨5 / 2, 150, false⟩, ⟨5 / 2, 200, false⟩, ⟨5 / 2, 999, true⟩] 0
    ⟨⟨5 / 2, 150, false⟩, by simp, rfl⟩
    (List.Forall₂.cons ⟨rfl, rfl, fun _ => rfl⟩
      (List.Forall₂.cons ⟨rfl, rfl, fun _ => rfl⟩
        (List.Forall₂.cons ⟨rfl, rfl, fun hfs => by simp at hfs⟩ List.Forall₂.nil)))
  ⟨h.1, h.2.1⟩

/-- C9, evaluated on the code. A one-trial session resolved by a false start
completes with the single result `{2.5, 0, true}`; on it (as on the empty
sequence) `ComputeAverageReactionMs` returns the number 0, and the trailing row
of `ExportResultsCsv` prints that 0 as the average, while `ExportResultsJson`
prints `null` for the same results. -/
theorem csv_reports_zero_average (fmt : ℚ → String) :
    (RunTestSession oneTrialApp [quietIter 10, pressIter 20, quietIter 30]).outcome =
        some SessionOutcome.Completed ∧
      (RunTestSession oneTrialApp [quietIter 10, pressIter 20, quietIter 30]).app.results =
        [⟨5 / 2, 0, true⟩] ∧
      ComputeAverageReactionMs [] = 0 ∧
      ComputeAverageReactionMs [⟨5 / 2, 0, true⟩] = 0 ∧
      ExportResultsCsv fmt [⟨5 / 2, 0, true⟩] =
        some ("trial,random_delay_seconds,reaction_ms,false_start\n" ++
          ("1" ++ "," ++ fmt (5 / 2) ++ "," ++ ",1\n") ++ ("average,," ++ fmt 0 ++ ",\n")) ∧
      jsonAverageField fmt [⟨5 / 2, 0, true⟩] = "null" := by
  refine ⟨by decide!, by decide!, ?_, ?_, ?_, ?_⟩
  · simp [ComputeAverageReactionMs, averageLoop]
  · simp [ComputeAverageReactionMs, averageLoop]
  · have h1 : toString (1 : Nat) = "1" := by decide
    simp [ExportResultsCsv, csvRows, csvAverageRow, ComputeAverageReactionMs, averageLoop, h1]
  · simp [jsonAverageField, countLoop]

/-- C10. In every state reached from `ResetSessionState` (with `trialCount`
a C++ `int`) `trialIndex = results.size()`, and a loop iteration from such a
state either leaves `results` and `trialIndex` unchanged or appends exactly one
result at the end and increases `trialIndex` by exactly 1; after an append the
phase is `Finished` if and only if the new `trialIndex >= trialCount`, and
`BeginTrial` otherwise. -/
theorem iteration_appends_at_most_one (app : App) (inputs : List IterInput) (i : IterInput)
    (hc : app.trialCount < 2 ^ 31) :
    (RunTestSession app inputs).app.trialIndex =
        ((RunTestSession app inputs).app.results.length : Int) ∧
      (((loopIteration (RunTestSession app inputs).app i).app.results =
            (RunTestSession app inputs).app.results ∧
          (loopIteration (RunTestSession app inputs).app i).app.trialIndex =
            (RunTestSession app inputs).app.trialIndex) ∨
        (∃ r,
          (loopIteration (RunTestSession app inputs).app i).app.results =
            (RunTestSession app inputs).app.results ++ [r] ∧
          (loopIteration (RunTestSession app inputs).app i).app.trialIndex =
            (RunTestSession app inputs).app.trialIndex + 1 ∧
          ((loopIteration (RunTestSession app inputs).app i).app.phase = Phase.Finished ↔
            (loopIteration (RunTestSession app inputs).app i).app.trialIndex ≥
              app.trialCount) ∧
          (¬ (loopIteration (RunTestSession app inputs).app i).app.trialIndex ≥
              app.trialCount →
            (loopIteration (RunTestSession app inputs).app i).app.phase =
              Phase.BeginTrial))) := by
  have hinv := RunTestSession_inv app inputs hc
  have ht := RunTestSession_trialCount app inputs
  generalize (RunTestSession app inputs).app = s at hinv ht ⊢
  refine ⟨hinv.1, ?_⟩
  have hfr := PumpMessages_frame s i.msgs
  have hpinv : SessionInv (PumpMessages s i.msgs) := SessionInv.of_frame hfr hinv
  obtain ⟨f1, f2, -, f4, -⟩ := hfr
  unfold loopIteration
  dsimp only
  generalize PumpMessages s i.msgs = p at hpinv f1 f2 f4 ⊢
  split_ifs
  · exact Or.inl ⟨f1, f2⟩
  · exact Or.inl ⟨f1, f2⟩
  · rcases phaseStep_cases p i with ⟨e1, e2⟩ | ⟨r, e1, e2, e3, hne⟩
    · exact Or.inl ⟨e1.trans f1, e2.trans f2⟩
    · obtain ⟨g1, g2, -⟩ := hpinv
      have hlt := g2 hne
      have hlen : (0 : Int) ≤ (p.results.length : Int) := Int.natCast_nonneg _
      have hw : wrapInt32 (p.trialIndex + 1) = p.trialIndex + 1 :=
        wrapInt32_of_range (by omega) (by omega)
      rw [hw] at e2 e3
      refine Or.inr ⟨r, by rw [e1, f1], by rw [e2, f2], ?_, ?_⟩
      · rw [e2, e3, f4, ht]
        unfold nextPhase
        split_ifs with hge
        · exact ⟨fun _ => hge, fun _ => rfl⟩
        · exact ⟨fun hf => by simp at hf, fun hg => absurd hg hge⟩
      · rw [e2, e3, f4, ht]
        unfold nextPhase
        intro hge
        rw [if_neg hge]

theorem iteration_appends_at_most_one_witness :
    oneTrialApp.trialCount < 2 ^ 31 ∧
      (RunTestSession oneTrialApp [quietIter 10, quietIter 2510]).app.trialIndex =
        ((RunTestSession oneTrialApp [quietIter 10, quietIter 2510]).app.results.length : Int) :=
  ⟨by decide,
    (iteration_appends_at_most_one oneTrialApp [quietIter 10, quietIter 2510] (pressIter 2660)
      (by decide)).1⟩

/-- C11. When the stimulus is presented (phase `WaitingForStimulus`, no false
start latched, elapsed time at least the scheduled delay) with pre-call reading
`t0` and post-call reading `t1`, `0 ≤ t0 ≤ t1` and `t0 + t1` within the signed
64-bit range, the stored `stimulusQpc` is `(t0 + t1) / 2` rounded down, and
`t0 ≤ stimulusQpc ≤ t1`. -/
theorem stimulus_midpoint (app : App) (i : IterInput)
    (hp : app.phase = Phase.WaitingForStimulus)
    (hnl : ¬ (app.hasInput = true ∧ app.inputWasFalseStart = true))
    (hel : QpcDeltaToSeconds (wrapInt64 (i.now - app.trialStartQpc)) app.qpcFreq ≥
      app.scheduledDelaySeconds)
    (h0 : 0 ≤ i.t0) (h01 : i.t0 ≤ i.t1) (hr : i.t0 + i.t1 < 2 ^ 63) :
    (phaseStep app i).effects = [Effect.present 1] ∧
      (phaseStep app i).app.phase = Phase.WaitingForResponse ∧
      (phaseStep app i).app.stimulusQpc = (i.t0 + i.t1) / 2 ∧
      2 * (phaseStep app i).app.stimulusQpc ≤ i.t0 + i.t1 ∧
      i.t0 + i.t1 < 2 * (phaseStep app i).app.stimulusQpc + 2 ∧
      i.t0 ≤ (phaseStep app i).app.stimulusQpc ∧
      (phaseStep app i).app.stimulusQpc ≤ i.t1 := by
  have hsum : wrapInt64 (i.t0 + i.t1) = i.t0 + i.t1 :=
    wrapInt64_of_range (by omega) hr
  have hdiv : Int.tdiv (i.t0 + i.t1) 2 = (i.t0 + i.t1) / 2 :=
    Int.tdiv_eq_ediv (by omega) (by omega)
  rw [phaseStep_waiting app i hp, if_neg hnl, if_pos hel]
  dsimp only
  rw [hsum, hdiv]
  refine ⟨rfl, rfl, rfl, ?_, ?_, ?_, ?_⟩ <;> omega

theorem stimulus_midpoint_witness :
    (phaseStep waitingApp stimulusIter).app.stimulusQpc =
        (stimulusIter.t0 + stimulusIter.t1) / 2 ∧
      (phaseStep waitingApp stimulusIter).app.stimulusQpc = 2518 :=
  ⟨(stimulus_midpoint waitingApp stimulusIter (by decide) (by decide) (by decide!)
      (by decide) (by decide) (by decide)).2.2.1,
    by decide!⟩

/-- C13. Whatever the prior state, after `ResetSessionState` the results are
empty, `trialIndex = 0`, the phase is `BeginTrial`, the latch, its false-start
flag and the cancel flag are cleared, the three timestamps and the scheduled
delay are 0, the bounds of the delay distribution are the current
`minDelaySeconds` and `maxDelaySeconds`, and `trialCount`, `minDelaySeconds`
and `maxDelaySeconds` (as well as the counter frequency and the quit flag) are
unchanged; `RunTestSession` starts its loop from this state. -/
theorem reset_gives_fresh_state (app : App) :
    (ResetSessionState app).results = [] ∧
      (ResetSessionState app).trialIndex = 0 ∧
      (ResetSessionState app).phase = Phase.BeginTrial ∧
      (ResetSessionState app).hasInput = false ∧
      (ResetSessionState app).inputWasFalseStart = false ∧
      (ResetSessionState app).escapePressed = false ∧
      (ResetSessionState app).trialStartQpc = 0 ∧
      (ResetSessionState app).stimulusQpc = 0 ∧
      (ResetSessionState app).inputQpc = 0 ∧
      (ResetSessionState app).scheduledDelaySeconds = 0 ∧
      (ResetSessionState app).delayDist = (app.minDelaySeconds, app.maxDelaySeconds) ∧
      (ResetSessionState app).trialCount = app.trialCount ∧
      (ResetSessionState app).minDelaySeconds = app.minDelaySeconds ∧
      (ResetSessionState app).maxDelaySeconds = app.maxDelaySeconds ∧
      (ResetSessionState app).qpcFreq = app.qpcFreq ∧
      (ResetSessionState app).quitRequested = app.quitRequested ∧
      (RunTestSession app []).app = ResetSessionState app :=
  ⟨rfl, rfl, rfl, rfl, rfl, rfl, rfl, rfl, rfl, rfl, rfl, rfl, rfl, rfl, rfl, rfl, rfl⟩

/-- C15. In a state reached from `ResetSessionState`, an iteration that runs
the switch in `WaitingForStimulus` with a false start latched resolves the
false start before looking at the delay: whatever the reading `now` (so also
when the elapsed time already is at least the scheduled delay) it appends the
false-start result, has no effect at all (no screen is presented), leaves
`stimulusQpc` at 0, and moves to `BeginTrial` or `Finished`, never to
`WaitingForResponse`. -/
theorem false_start_preempts_stimulus (app : App) (inputs : List IterInput) (i : IterInput)
    (hp : (PumpMessages (RunTestSession app inputs).app i.msgs).phase =
      Phase.WaitingForStimulus)
    (hq : (PumpMessages (RunTestSession app inputs).app i.msgs).quitRequested = false)
    (he : (PumpMessages (RunTestSession app inputs).app i.msgs).escapePressed = false)
    (hi : (PumpMessages (RunTestSession app inputs).app i.msgs).hasInput = true)
    (hf : (PumpMessages (RunTestSession app inputs).app i.msgs).inputWasFalseStart = true) :
    (loopIteration (RunTestSession app inputs).app i).app.results =
        (RunTestSession app inputs).app.results ++
          [⟨(RunTestSession app inputs).app.scheduledDelaySeconds, 0, true⟩] ∧
      (loopIteration (RunTestSession app inputs).app i).effects = [] ∧
      (loopIteration (RunTestSession app inputs).app i).app.stimulusQpc = 0 ∧
      ((loopIteration (RunTestSession app inputs).app i).app.phase = Phase.BeginTrial ∨
        (loopIteration (RunTestSession app inputs).app i).app.phase = Phase.Finished) ∧
      (loopIteration (RunTestSession app inputs).app i).app.phase ≠
        Phase.WaitingForResponse := by
  have hinv := PumpMessages_latchInv _ i.msgs (RunTestSession_latchInv app inputs)
  obtain ⟨f1, -, -, -, -, f6, -, -⟩ := PumpMessages_frame (RunTestSession app inputs).app i.msgs
  rw [loopIteration_of_clear _ i hq he, phaseStep_falseStart _ i hp hi hf]
  dsimp only
  refine ⟨by rw [f1, f6], rfl, (hinv.1 hp).1, ?_, (nextPhase_ne_waiting _ _).2⟩
  rcases nextPhase_cases (wrapInt32
    ((PumpMessages (RunTestSession app inputs).app i.msgs).trialIndex + 1))
    (PumpMessages (RunTestSession app inputs).app i.msgs).trialCount with h | h
  · exact Or.inr h
  · exact Or.inl h

theorem false_start_preempts_stimulus_witness :
    (loopIteration (RunTestSession oneTrialApp [quietIter 10]).app (pressIter 5000)).app.results =
        (RunTestSession oneTrialApp [quietIter 10]).app.results ++
          [⟨(RunTestSession oneTrialApp [quietIter 10]).app.scheduledDelaySeconds, 0, true⟩] ∧
      (loopIteration (RunTestSession oneTrialApp [quietIter 10]).app (pressIter 5000)).effects =
        [] :=
  have h := false_start_preempts_stimulus oneTrialApp [quietIter 10] (pressIter 5000)
    (by decide) (by decide) (by decide) (by decide) (by decide)
  ⟨h.1, h.2.1⟩

/-- C16. An iteration that runs the switch in `BeginTrial` (neither quit nor
cancel set after the pump) stays in the loop and moves to
`WaitingForStimulus` whatever the latch held before: `scheduledDelaySeconds`
is the freshly drawn delay, `trialStartQpc` the reading `now`, `hasInput` and
`inputWasFalseStart` are cleared, `stimulusQpc` and `inputQpc` are 0, the dark
screen is the one effect, and `results` and `trialIndex` are unchanged. -/
theorem begin_trial_step (app : App) (i : IterInput)
    (hp : app.phase = Phase.BeginTrial)
    (hq : (PumpMessages app i.msgs).quitRequested = false)
    (he : (PumpMessages app i.msgs).escapePressed = false) :
    (loopIteration app i).exit = none ∧
      (loopIteration app i).app.phase = Phase.WaitingForStimulus ∧
      (loopIteration app i).app.scheduledDelaySeconds = i.delay ∧
      (loopIteration app i).app.trialStartQpc = i.now ∧
      (loopIteration app i).app.hasInput = false ∧
      (loopIteration app i).app.inputWasFalseStart = false ∧
      (loopIteration app i).app.stimulusQpc = 0 ∧
      (loopIteration app i).app.inputQpc = 0 ∧
      (loopIteration app i).effects = [Effect.present 0] ∧
      (loopIteration app i).app.results = app.results ∧
      (loopIteration app i).app.trialIndex = app.trialIndex := by
  obtain ⟨f1, f2, f3, -⟩ := PumpMessages_frame app i.msgs
  rw [loopIteration_of_clear app i hq he, phaseStep_begin _ i (by rw [f3, hp])]
  exact ⟨rfl, rfl, rfl, rfl, rfl, rfl, rfl, rfl, rfl, f1, f2⟩

theorem begin_trial_step_witness :
    (loopIteration (ResetSessionState oneTrialApp) (pressIter 10)).app.phase =
        Phase.WaitingForStimulus ∧
      (loopIteration (ResetSessionState oneTrialApp) (pressIter 10)).app.hasInput = false ∧
      (loopIteration (ResetSessionState oneTrialApp) (pressIter 10)).effects =
        [Effect.present 0] :=
  have h := begin_trial_step (ResetSessionState oneTrialApp) (pressIter 10)
    (by decide) (by decide) (by decide)
  ⟨h.2.1, h.2.2.2.2.1, h.2.2.2.2.2.2.2.2.1⟩

/-- C17. In a `WaitingForStimulus` step with no false start latched: if the
elapsed time is below the scheduled delay, the state is unchanged and the one
effect is `Sleep(1)` if and only if the remaining time exceeds 0.003 s, and
`SwitchToThread` otherwise; and the stimulus screen is presented exactly when
the elapsed time is at least the scheduled delay. -/
theorem waiting_step_yields (app : App) (i : IterInput)
    (hp : app.phase = Phase.WaitingForStimulus)
    (hnl : ¬ (app.hasInput = true ∧ app.inputWasFalseStart = true)) :
    (QpcDeltaToSeconds (wrapInt64 (i.now - app.trialStartQpc)) app.qpcFreq <
          app.scheduledDelaySeconds →
        (phaseStep app i).app = app ∧
          (phaseStep app i).exit = none ∧
          ((phaseStep app i).effects = [Effect.sleep 1] ↔
            app.scheduledDelaySeconds -
              QpcDeltaToSeconds (wrapInt64 (i.now - app.trialStartQpc)) app.qpcFreq >
                3 / 1000) ∧
          ((phaseStep app i).effects = [Effect.switchToThread] ↔
            ¬ (app.scheduledDelaySeconds -
              QpcDeltaToSeconds (wrapInt64 (i.now - app.trialStartQpc)) app.qpcFreq >
                3 / 1000))) ∧
      (Effect.present 1 ∈ (phaseStep app i).effects ↔
        QpcDeltaToSeconds (wrapInt64 (i.now - app.trialStartQpc)) app.qpcFreq ≥
          app.scheduledDelaySeconds) := by
  rw [phaseStep_waiting app i hp, if_neg hnl]
  constructor
  · intro hlt
    rw [if_neg (not_le.2 hlt)]
    split_ifs with hrem
    · exact ⟨rfl, rfl, ⟨fun _ => hrem, fun _ => rfl⟩, ⟨fun h => by simp at h, fun h => absurd hrem h⟩⟩
    · exact ⟨rfl, rfl, ⟨fun h => by simp at h, fun h => absurd h hrem⟩, ⟨fun _ => hrem, fun _ => rfl⟩⟩
  · split_ifs with hel hrem
    · exact ⟨fun _ => hel, fun _ => by simp⟩
    · exact ⟨fun h => by simp at h, fun h => absurd h hel⟩
    · exact ⟨fun h => by simp at h, fun h => absurd h hel⟩

theorem waiting_step_yields_witness :
    (phaseStep waitingApp (quietIter 20)).app = waitingApp ∧
      (phaseStep waitingApp (quietIter 20)).effects = [Effect.sleep 1] ∧
      (phaseStep waitingApp (quietIter 2508)).effects = [Effect.switchToThread] :=
  ⟨((waiting_step_yields waitingApp (quietIter 20) (by decide) (by decide)).1
      (by decide!)).1,
    by decide!, by decide!⟩

/-- C18. In every state reached from `ResetSessionState` by loop iterations
(messages are handled only by the pump at the top of an iteration), also after
the pump of a further iteration, a press latched in `WaitingForResponse` is
never marked as a false start; a press recorded there latches as a valid one;
and an iteration that runs the switch in `WaitingForResponse` with a latched
press appends a result with `falseStart = false` and leaves that phase, so the
trial is resolved in the iteration whose pump recorded the press. -/
theorem response_latch_is_valid (app : App) (inputs : List IterInput) (i : IterInput)
    (q : Int) :
    ((RunTestSession app inputs).app.phase = Phase.WaitingForResponse →
        (RunTestSession app inputs).app.hasInput = true →
        (RunTestSession app inputs).app.inputWasFalseStart = false) ∧
      ((RunTestSession app inputs).app.phase = Phase.WaitingForResponse →
        (RecordRawInputPress (RunTestSession app inputs).app q).hasInput = true ∧
          (RecordRawInputPress (RunTestSession app inputs).app q).inputWasFalseStart =
            false) ∧
      ((PumpMessages (RunTestSession app inputs).app i.msgs).phase =
          Phase.WaitingForResponse →
        (PumpMessages (RunTestSession app inputs).app i.msgs).hasInput = true →
        (PumpMessages (RunTestSession app inputs).app i.msgs).inputWasFalseStart = false ∧
          ((PumpMessages (RunTestSession app inputs).app i.msgs).quitRequested = false →
            (PumpMessages (RunTestSession app inputs).app i.msgs).escapePressed = false →
            (∃ r, (loopIteration (RunTestSession app inputs).app i).app.results =
                (RunTestSession app inputs).app.results ++ [r] ∧ r.falseStart = false) ∧
              (loopIteration (RunTestSession app inputs).app i).app.phase ≠
                Phase.WaitingForResponse)) := by
  have hs := RunTestSession_latchInv app inputs
  have hpi := PumpMessages_latchInv _ i.msgs hs
  have hr := RecordRawInputPress_latchInv _ q hs
  refine ⟨hs.2, fun hph => ?_, fun hph hi => ?_⟩
  · have hrp : (RecordRawInputPress (RunTestSession app inputs).app q).phase =
        Phase.WaitingForResponse := by
      rw [(RecordRawInputPress_frame _ q).2.2.1, hph]
    have hin : (RecordRawInputPress (RunTestSession app inputs).app q).hasInput = true := by
      unfold RecordRawInputPress
      cases hh : (RunTestSession app inputs).app.hasInput <;> simp [hph, hh]
    exact ⟨hin, hr.2 hrp hin⟩
  · have hfs := hpi.2 hph hi
    refine ⟨hfs, fun hq he => ?_⟩
    obtain ⟨f1, -⟩ := PumpMessages_frame (RunTestSession app inputs).app i.msgs
    rw [loopIteration_of_clear _ i hq he, phaseStep_response _ i hph, if_pos ⟨hi, hfs⟩]
    dsimp only
    exact ⟨⟨_, by rw [f1], rfl⟩, (nextPhase_ne_waiting _ _).2⟩

theorem response_latch_is_valid_witness :
    (PumpMessages (RunTestSession oneTrialApp [quietIter 10, quietIter 2510]).app
        (pressIter 2660).msgs).inputWasFalseStart = false :=
  ((response_latch_is_valid oneTrialApp [quietIter 10, quietIter 2510] (pressIter 2660) 0).2.2
    (by decide!) (by decide!)).1

/-- C14. For every non-empty result sequence: for each trial with
`falseStart = true` (the sequence read as `before ++ trial :: after`), the row
`ExportResultsCsv` writes for it has an empty `reaction_ms` field and
`false_start` 1, and the entry `ExportResultsJson` writes for it has
`"reaction_ms": null` and `"false_start": true`; the value JSON writes for
`"average_reaction_ms"` is `null` when no trial is valid and the formatted
average otherwise (so, for a formatter that never prints `null`, it is `null`
exactly when there are zero valid trials). -/
theorem false_starts_exported_without_value (fmt : ℚ → String)
    (results : List TrialResult) (hne : results ≠ []) :
    (∀ (before after : List TrialResult) (trial : TrialResult),
        results = before ++ trial :: after → trial.falseStart = true →
        ExportResultsCsv fmt results =
            some ("trial,random_delay_seconds,reaction_ms,false_start\n" ++
              (csvRows fmt 0 before ++
                (toString (before.length + 1) ++ "," ++ fmt trial.delaySeconds ++ ",,1\n") ++
                csvRows fmt (before.length + 1) after) ++
              csvAverageRow fmt results) ∧
          ExportResultsJson fmt results =
            some (jsonPreamble fmt results ++
              (jsonRows fmt results.length 0 before ++
                ("    \x7b\"trial\": " ++ toString (before.length + 1) ++
                  ", \"random_delay_seconds\": " ++ fmt trial.delaySeconds ++
                  ", \"reaction_ms\": null, \"false_start\": true\x7d" ++
                  (if before.length + 1 < results.length then "," else "") ++ "\n") ++
                jsonRows fmt results.length (before.length + 1) after) ++
              "  ]\n" ++ "\x7d\n")) ∧
      ExportResultsJson fmt results =
        some (jsonPreamble fmt results ++ jsonRows fmt results.length 0 results ++
          "  ]\n" ++ "\x7d\n") ∧
      ((∀ t ∈ results, t.falseStart = true) → jsonAverageField fmt results = "null") ∧
      ((∃ t ∈ results, t.falseStart = false) →
        jsonAverageField fmt results = fmt (ComputeAverageReactionMs results)) ∧
      ((∀ x, fmt x ≠ "null") →
        (jsonAverageField fmt results = "null" ↔ ∀ t ∈ results, t.falseStart = true)) := by
  have hemp : results.isEmpty = false := by
    cases results with
    | nil => exact absurd rfl hne
    | cons a l => rfl
  have hcount : (countLoop results (0, 0)).1 = (validReactions results).length := by
    rw [countLoop_valid]
    simp
  have hnull : (∀ t ∈ results, t.falseStart = true) → jsonAverageField fmt results = "null" := by
    intro h
    unfold jsonAverageField
    rw [hcount, (validReactions_length_eq_zero results).2 h]
    simp
  have hval : (∃ t ∈ results, t.falseStart = false) →
      jsonAverageField fmt results = fmt (ComputeAverageReactionMs results) := by
    intro h
    unfold jsonAverageField
    rw [hcount, if_pos (validReactions_pos h)]
  have hjson : ExportResultsJson fmt results =
      some (jsonPreamble fmt results ++ jsonRows fmt results.length 0 results ++
        "  ]\n" ++ "\x7d\n") := by
    unfold ExportResultsJson
    rw [hemp]
    simp [jsonPreamble, String.append_assoc]
  refine ⟨fun before after trial hres hfs => ⟨?_, ?_⟩, hjson, hnull, hval,
    fun hfmt => ⟨fun h => ?_, hnull⟩⟩
  · unfold ExportResultsCsv
    rw [hemp]
    have hrows : csvRows fmt 0 results =
        csvRows fmt 0 before ++
          (toString (before.length + 1) ++ "," ++ fmt trial.delaySeconds ++ ",,1\n") ++
          csvRows fmt (before.length + 1) after := by
      rw [hres, csvRows_append, csvRows_cons]
      simp [csvRow, hfs, String.append_assoc]
    simp [hrows]
  · have key : ∀ n : Nat, jsonRows fmt n 0 (before ++ trial :: after) =
        jsonRows fmt n 0 before ++
          ("    \x7b\"trial\": " ++ toString (before.length + 1) ++
            ", \"random_delay_seconds\": " ++ fmt trial.delaySeconds ++
            ", \"reaction_ms\": null, \"false_start\": true\x7d" ++
            (if before.length + 1 < n then "," else "") ++ "\n") ++
          jsonRows fmt n (before.length + 1) after := by
      intro n
      rw [jsonRows_append, jsonRows_cons]
      simp [jsonRow, hfs, String.append_assoc]
    have hrows := key results.length
    rw [← hres] at hrows
    rw [hjson, hrows]
  · by_contra hall
    have hex : ∃ t ∈ results, t.falseStart = false := by
      push_neg at hall
      obtain ⟨t, ht, hne2⟩ := hall
      exact ⟨t, ht, by simpa using hne2⟩
    rw [hval hex] at h
    exact hfmt _ h

theorem false_starts_exported_without_value_witness :
    ExportResultsCsv fixed6 [⟨5 / 2, 150, false⟩, ⟨5 / 2, 0, true⟩] =
      some ("trial,random_delay_seconds,reaction_ms,false_start\n" ++
        (csvRows fixed6 0 [⟨5 / 2, 150, false⟩] ++
          (toString ([(⟨5 / 2, 150, false⟩ : TrialResult)].length + 1) ++ "," ++
            fixed6 ((⟨5 / 2, 0, true⟩ : TrialResult).delaySeconds) ++ ",,1\n") ++
          csvRows fixed6 ([(⟨5 / 2, 150, false⟩ : TrialResult)].length + 1) []) ++
        csvAverageRow fixed6 [⟨5 / 2, 150, false⟩, ⟨5 / 2, 0, true⟩]) :=
  ((false_starts_exported_without_value fixed6
    [⟨5 / 2, 150, false⟩, ⟨5 / 2, 0, true⟩] (by simp)).1
    [⟨5 / 2, 150, false⟩] [] ⟨5 / 2, 0, true⟩ rfl rfl).1

/-- The two files written for a valid trial followed by a false start. -/
theorem export_example :
    ExportResultsCsv fixed6 [⟨5 / 2, 150, false⟩, ⟨5 / 2, 0, true⟩] =
        some ("trial,random_delay_seconds,reaction_ms,false_start\n" ++
          "1,2.500000,150.000000,0\n" ++
          "2,2.500000,,1\n" ++
          "average,,150.000000,\n") ∧
      ExportResultsJson fixed6 [⟨5 / 2, 150, false⟩, ⟨5 / 2, 0, true⟩] =
        some ("\x7b\n" ++
          "  \"trial_count\": 2,\n" ++
          "  \"valid_count\": 1,\n" ++
          "  \"false_start_count\": 1,\n" ++
          "  \"average_reaction_ms\": 150.000000,\n" ++
          "  \"trials\": [\n" ++
          "    \x7b\"trial\": 1, \"random_delay_seconds\": 2.500000, " ++
            "\"reaction_ms\": 150.000000, \"false_start\": false\x7d,\n" ++
          "    \x7b\"trial\": 2, \"random_delay_seconds\": 2.500000, " ++
            "\"reaction_ms\": null, \"false_start\": true\x7d\n" ++
          "  ]\n" ++
          "\x7d\n") := by
  decide!

/-- C12, evaluated on the code. `wcstod` and `strtod` read the text `nan` as
NaN, and every comparison with NaN is false, so the range tests let it through:
`ParseArgs` returns `Ok` for `--min-delay nan` (and for `--max-delay nan`)
with a configuration that violates `minDelaySeconds > 0` and
`minDelaySeconds < maxDelaySeconds`, and on the valid default configuration
`ShowSettingsPage` accepts the line `nan` for either bound and stores NaN. -/
theorem nan_delay_accepted :
    (ParseArgs sampleRuntime startupApp
        (some ["PurpleReaction.exe", "--min-delay", "nan"])).result = ArgParseResult.Ok ∧
      (ParseArgs sampleRuntime startupApp
        (some ["PurpleReaction.exe", "--min-delay", "nan"])).app.minDelaySeconds =
        CDouble.nan ∧
      ¬ ValidConfig (ParseArgs sampleRuntime startupApp
        (some ["PurpleReaction.exe", "--min-delay", "nan"])).app ∧
      (ParseArgs sampleRuntime startupApp
        (some ["PurpleReaction.exe", "--max-delay", "nan"])).result = ArgParseResult.Ok ∧
      ¬ ValidConfig (ParseArgs sampleRuntime startupApp
        (some ["PurpleReaction.exe", "--max-delay", "nan"])).app ∧
      ValidConfig startupApp ∧
      (settingsEdit sampleRuntime startupApp 1 "nan").minDelaySeconds = CDouble.nan ∧
      ¬ ValidConfig (settingsEdit sampleRuntime startupApp 1 "nan") ∧
      (settingsEdit sampleRuntime startupApp 2 "nan").maxDelaySeconds = CDouble.nan ∧
      ¬ ValidConfig (settingsEdit sampleRuntime startupApp 2 "nan") := by
  decide!

/-- A help request ends the argument loop before the range test: for
`--min-delay -5 --help` the result is `ExitRequested` (no session is run)
although `minDelaySeconds` is `-5`. -/
theorem help_after_bad_value :
    (ParseArgs sampleRuntime startupApp
        (some ["PurpleReaction.exe", "--min-delay", "-5", "--help"])).result =
        ArgParseResult.ExitRequested ∧
      (ParseArgs sampleRuntime startupApp
        (some ["PurpleReaction.exe", "--min-delay", "-5", "--help"])).app.minDelaySeconds =
        CDouble.finite (-5) := by
  decide!

/-- The checks of the configuration code on ordinary input: a valid command
line is accepted as given, a bound that is not positive is refused, and on the
settings page a rejected edit changes nothing while an accepted one stores the
value read. -/
theorem config_examples :
    (ParseArgs sampleRuntime startupApp
        (some ["PurpleReaction.exe", "--min-delay", "1", "--max-delay", "3", "--trials",
          "2"])).result = ArgParseResult.Ok ∧
      ValidConfig (ParseArgs sampleRuntime startupApp
        (some ["PurpleReaction.exe", "--min-delay", "1", "--max-delay", "3", "--trials",
          "2"])).app ∧
      (ParseArgs sampleRuntime startupApp
        (some ["PurpleReaction.exe", "--min-delay", "-5"])).result = ArgParseResult.Error ∧
      (ParseArgs sampleRuntime startupApp
        (some ["PurpleReaction.exe", "--trials", "0"])).result = ArgParseResult.Error ∧
      ShowSettingsPage sampleRuntime startupApp [(1, "9"), (4, "")] = startupApp ∧
      (ShowSettingsPage sampleRuntime startupApp [(1, "9"), (2, "4"), (4, "")]).maxDelaySeconds =
        4 ∧
      (ShowSettingsPage sampleRuntime startupApp [(1, "9"), (2, "4"), (4, "")]).minDelaySeconds =
        2 := by
  decide!

end PurpleReaction
